import Mathlib

/-!
# Approval workflow of the expense application

A shallow embedding of the handler of `POST /api/manager/action-expense/:expenseId`
(`backend/server.js`) together with the relational tables it reads and writes.

* Tables are lists of rows; a `SELECT ... WHERE` is a `List.filter`, `rows[0]` is
  `List.head?`, an `UPDATE ... WHERE id = ?` is a `List.map` over the table and an
  `INSERT` appends a row.
* Values that come from the request body are `JsValue`s, so that an absent field
  (`undefined`) is distinguished from an explicit `null`.
* The `try / catch / finally` of the handler is modelled by `TryResult`: the `try`
  block either runs to its end, leaves through a `return`, or throws.  `actionExpense`
  then performs `commit`, nothing, or `rollback`, and always `release`.
-/

namespace ExpenseWorkflow

/-! ## Values -/

/-- A JavaScript value as found in a parsed JSON request body, or bound to a query parameter. -/
inductive JsValue where
  | undefined
  | null
  | bool (b : Bool)
  | number (q : Rat)
  | string (s : String)
  deriving DecidableEq, Repr

/-- JavaScript truthiness (`if (v)`, `v || w`). -/
def JsValue.truthy : JsValue → Bool
  | .undefined => false
  | .null => false
  | .bool b => b
  | .number q => q != 0
  | .string s => s != ""

/-- The value of `v || null`. -/
def JsValue.orNull (v : JsValue) : JsValue :=
  if v.truthy then v else .null

/-- The value the driver binds for a query parameter: `undefined` is sent as `NULL`. -/
def JsValue.bind : JsValue → JsValue
  | .undefined => .null
  | v => v

/-- Truthiness of a nullable integer column read back from the store (`NULL` and `0` are falsy). -/
def idTruthy : Option Nat → Bool
  | none => false
  | some n => n != 0

/-- The two actions the handler accepts. -/
inductive Action where
  | Approved
  | Rejected
  deriving DecidableEq, Repr

/-- The values of the `status` column of `expenses`. -/
inductive Status where
  | Pending
  | Approved
  | Rejected
  deriving DecidableEq, Repr

/-- The status written by `UPDATE expenses SET status = ?` with the action as parameter. -/
def Action.toStatus : Action → Status
  | .Approved => .Approved
  | .Rejected => .Rejected

/-- The text of `action.toLowerCase()`. -/
def Action.toLowerCase : Action → String
  | .Approved => "approved"
  | .Rejected => "rejected"

/-- The test `['Approved', 'Rejected'].includes(action)`, returning the recognised action. -/
def validAction : JsValue → Option Action
  | .string s => if s = "Approved" then some .Approved
                 else if s = "Rejected" then some .Rejected else none
  | _ => none

/-! ## Tables -/

/-- A row of `expenses`. -/
structure Expense where
  id : Nat
  employee_id : Nat
  company_id : Nat
  category : String
  description : String
  amount : Rat
  currency : String
  expense_date : String
  status : Status
  approved_amount : JsValue
  rule_id : Option Nat
  current_step_id : Option Nat
  deriving DecidableEq, Repr

/-- A row of `users`. -/
structure User where
  id : Nat
  company_id : Nat
  email : String
  role : String
  name : String
  deriving DecidableEq, Repr

/-- A row of `companies`. -/
structure Company where
  id : Nat
  name : String
  default_currency : String
  deriving DecidableEq, Repr

/-- A row of `approval_rules`. -/
structure ApprovalRule where
  id : Nat
  company_id : Nat
  rule_type : String
  deriving DecidableEq, Repr

/-- A row of `approval_steps`. -/
structure ApprovalStep where
  id : Nat
  rule_id : Nat
  step_sequence : Int
  deriving DecidableEq, Repr

/-- A row of `approval_history`, with the columns the handler supplies on insert. -/
structure HistoryEntry where
  expense_id : Nat
  approver_id : Nat
  action : Action
  step_approved_amount : JsValue
  comments : JsValue
  deriving DecidableEq, Repr

/-- The relational store. -/
structure Db where
  companies : List Company
  users : List User
  expenses : List Expense
  approval_rules : List ApprovalRule
  approval_steps : List ApprovalStep
  approval_history : List HistoryEntry
  deriving DecidableEq, Repr

/-! ## Queries of the handler -/

/-- Rows of `SELECT ... FROM expenses WHERE id = ?`. -/
def selectExpense (db : Db) (expenseId : Nat) : List Expense :=
  db.expenses.filter (fun e => e.id = expenseId)

/-- The row `rows[0]` of `selectExpense`, when there is one. -/
def findExpense (db : Db) (expenseId : Nat) : Option Expense :=
  (selectExpense db expenseId).head?

/-- Rows of `SELECT step_sequence FROM approval_steps WHERE id = ?`; the parameter is the
nullable `current_step_id` read from the expense. -/
def selectStep (db : Db) (stepId : Option Nat) : List ApprovalStep :=
  db.approval_steps.filter (fun s => some s.id = stepId)

/-- The clause `ORDER BY step_sequence ASC`. -/
def orderBySequence (steps : List ApprovalStep) : List ApprovalStep :=
  steps.insertionSort (fun a b => a.step_sequence ≤ b.step_sequence)

/-- Rows of `SELECT id FROM approval_steps WHERE rule_id = ? AND step_sequence > ?
ORDER BY step_sequence ASC LIMIT 1`; the first parameter is the nullable `rule_id` read
from the expense. -/
def selectNextStep (db : Db) (ruleId : Option Nat) (currentSequence : Int) :
    List ApprovalStep :=
  (orderBySequence (db.approval_steps.filter
    (fun s => some s.rule_id = ruleId ∧ s.step_sequence > currentSequence))).take 1

/-- Rows of `SELECT id FROM approval_history WHERE expense_id = ? AND approver_id = ?`. -/
def selectExistingAction (db : Db) (expenseId approverId : Nat) : List HistoryEntry :=
  db.approval_history.filter (fun h => h.expense_id = expenseId ∧ h.approver_id = approverId)

/-- The count `SELECT COUNT(*) FROM users WHERE company_id = ? AND role = "Manager"`. -/
def countManagers (db : Db) (companyId : Nat) : Nat :=
  (db.users.filter (fun u => u.company_id = companyId ∧ u.role = "Manager")).length

/-- The count `SELECT COUNT(*) FROM approval_history WHERE expense_id = ? AND action = "Approved"`. -/
def countApprovals (db : Db) (expenseId : Nat) : Nat :=
  (db.approval_history.filter (fun h => h.expense_id = expenseId ∧ h.action = .Approved)).length

/-- The statement `INSERT INTO approval_history (...) VALUES (...)`. -/
def insertHistory (db : Db) (h : HistoryEntry) : Db :=
  { db with approval_history := db.approval_history ++ [h] }

/-- An `UPDATE expenses SET ... WHERE id = ?`, with `f` the assignment of the `SET` clause. -/
def updateExpense (db : Db) (expenseId : Nat) (f : Expense → Expense) : Db :=
  { db with expenses := db.expenses.map (fun e => if e.id = expenseId then f e else e) }

/-- The statement `UPDATE expenses SET status = ?, approved_amount = 0 WHERE id = ?`. -/
def setRejected (action : Action) (e : Expense) : Expense :=
  { e with status := action.toStatus, approved_amount := .number 0 }

/-- The statement `UPDATE expenses SET current_step_id = ? WHERE id = ?`. -/
def setCurrentStep (stepId : Nat) (e : Expense) : Expense :=
  { e with current_step_id := some stepId }

/-- The statement `UPDATE expenses SET status = ?, approved_amount = ?, current_step_id = NULL
WHERE id = ?`. -/
def setResolvedClearStep (action : Action) (finalAmount : JsValue) (e : Expense) : Expense :=
  { e with status := action.toStatus, approved_amount := finalAmount.bind, current_step_id := none }

/-- The statement `UPDATE expenses SET status = ?, approved_amount = ? WHERE id = ?`. -/
def setResolved (action : Action) (finalAmount : JsValue) (e : Expense) : Expense :=
  { e with status := action.toStatus, approved_amount := finalAmount.bind }

/-! ## The handler -/

/-- The authenticated caller, `req.user`. -/
structure ReqUser where
  id : Nat
  role : String
  company_id : Nat
  deriving DecidableEq, Repr

/-- What the handler reads from a request: `req.params`, `req.body` and `req.user`. -/
structure Request where
  expenseId : Nat
  action : JsValue
  comments : JsValue
  approved_amount : JsValue
  user : ReqUser
  deriving DecidableEq, Repr

/-- An HTTP response: `res.status(code).json(...)` with the `message` of the body. -/
structure Response where
  status : Nat
  message : String
  deriving DecidableEq, Repr

/-- The 409 response of the duplicate-action guard. -/
def duplicateAction : Response :=
  ⟨409, "You have already actioned this expense."⟩

/-- The 400 response of the action validation. -/
def invalidAction : Response :=
  ⟨400, "Invalid action specified."⟩

/-- How control leaves the `try` block; `work` is the state seen inside the transaction. -/
inductive TryResult where
  | completed (work : Db)
  | returned (res : Response) (work : Db)
  | threw (work : Db)
  deriving DecidableEq, Repr

/-- The expression `approved_amount !== undefined ? approved_amount :
(await connection.query('SELECT amount FROM expenses WHERE id = ?'))[0][0].amount`;
`none` when the row read is missing and the member access throws. -/
def finalAmount (work : Db) (expenseId : Nat) (approved_amount : JsValue) : Option JsValue :=
  if approved_amount ≠ .undefined then some approved_amount
  else match findExpense work expenseId with
    | some e => some (.number e.amount)
    | none => none

/-- The sequential flow of the approval logic. -/
def sequentialFlow (work : Db) (req : Request) (action : Action)
    (ruleId currentStepId : Option Nat) : TryResult :=
  match (selectStep work currentStepId).head? with
  | none => .threw work
  | some currentStep =>
    let currentSequence := currentStep.step_sequence
    match (selectNextStep work ruleId currentSequence).head? with
    | some nextStep =>
      .completed (updateExpense work req.expenseId (setCurrentStep nextStep.id))
    | none =>
      match finalAmount work req.expenseId req.approved_amount with
      | none => .threw work
      | some amt =>
        .completed (updateExpense work req.expenseId (setResolvedClearStep action amt))

/-- The fallback "all managers approve" flow of the approval logic. -/
def allManagersFlow (work : Db) (req : Request) (action : Action) (companyId : Nat) :
    TryResult :=
  let existingAction := selectExistingAction work req.expenseId req.user.id
  if existingAction.length > 1 then
    .returned duplicateAction work
  else
    let totalManagers := countManagers work companyId
    let totalApprovals := countApprovals work req.expenseId
    if totalApprovals ≥ totalManagers then
      match finalAmount work req.expenseId req.approved_amount with
      | none => .threw work
      | some amt => .completed (updateExpense work req.expenseId (setResolved action amt))
    else
      .completed work

/-- The row of `INSERT INTO approval_history (expense_id, approver_id, action,
step_approved_amount, comments) VALUES (?, ?, ?, ?, ?)` with the parameters
`[expenseId, approverId, action, action === 'Approved' ? approved_amount : null,
comments || null]`. -/
def historyRow (req : Request) (action : Action) : HistoryEntry :=
  { expense_id := req.expenseId
    approver_id := req.user.id
    action := action
    step_approved_amount :=
      (if action = .Approved then req.approved_amount else JsValue.null).bind
    comments := req.comments.orNull }

/-- The policy dispatch `ruleId && currentStepId` of the handler, on a row of `expenses`. -/
def isSequential (e : Expense) : Bool :=
  idTruthy e.rule_id && idTruthy e.current_step_id

/-- The body of the `try` block, from after `beginTransaction()` up to `commit()`. -/
def tryBlock (db : Db) (req : Request) (action : Action) : TryResult :=
  match findExpense db req.expenseId with
  | none => .threw db
  | some details =>
    let work := insertHistory db (historyRow req action)
    match action with
    | .Rejected => .completed (updateExpense work req.expenseId (setRejected action))
    | .Approved =>
      if isSequential details then
        sequentialFlow work req action details.rule_id details.current_step_id
      else
        allManagersFlow work req action details.company_id

/-- Calls made on the pooled connection. -/
inductive ConnOp where
  | getConnection
  | beginTransaction
  | commit
  | rollback
  | release
  deriving DecidableEq, Repr

/-- The result of one invocation: the response, the committed store, the state of a
transaction left open on the released connection (if any), and the connection calls made. -/
structure Outcome where
  response : Response
  db : Db
  openTransaction : Option Db
  trace : List ConnOp
  deriving DecidableEq, Repr

/-- The handler of `POST /api/manager/action-expense/:expenseId`. -/
def actionExpense (db : Db) (req : Request) : Outcome :=
  match validAction req.action with
  | none => ⟨invalidAction, db, none, []⟩
  | some action =>
    match tryBlock db req action with
    | .completed work =>
      ⟨⟨200, "Expense successfully " ++ action.toLowerCase ++ "."⟩, work, none,
        [.getConnection, .beginTransaction, .commit, .release]⟩
    | .returned res work =>
      ⟨res, db, some work, [.getConnection, .beginTransaction, .release]⟩
    | .threw _ =>
      ⟨⟨500, "Server error while processing the expense action."⟩, db, none,
        [.getConnection, .beginTransaction, .rollback, .release]⟩

/-- The store after a run of invocations, each starting from the store the previous one left. -/
def runActions (db : Db) (reqs : List Request) : Db :=
  reqs.foldl (fun d r => (actionExpense d r).db) db

/-- The steps of rule `ruleId` in ascending order of step_sequence. -/
def ruleSteps (db : Db) (ruleId : Nat) : List ApprovalStep :=
  orderBySequence (db.approval_steps.filter (fun s => s.rule_id = ruleId))

/-- The approved_amount a resolving approval stores for expense `e`: the one of the request
when present, the expense's amount otherwise. -/
def resolvedAmount (req : Request) (e : Expense) : JsValue :=
  if req.approved_amount = .undefined then .number e.amount else req.approved_amount

/-! ## A sample store

Company 1 has the managers 1 and 2 and the employee 4; company 2 has the manager 3.
Company 1 owns a sequential rule with the steps of sequence 10, 20 and 30.  Expense 7
follows that rule and stands at its first step; expense 8 carries no rule. -/

/-- The sample expense under the sequential policy, at the step of sequence 10. -/
def sampleSeqExpense : Expense :=
  { id := 7, employee_id := 4, company_id := 1, category := "Travel", description := "Taxi"
    amount := 100, currency := "USD", expense_date := "2025-01-15", status := .Pending
    approved_amount := .null, rule_id := some 1, current_step_id := some 11 }

/-- The sample expense under the fallback policy. -/
def sampleQuorumExpense : Expense :=
  { id := 8, employee_id := 4, company_id := 1, category := "Meals", description := "Lunch"
    amount := 60, currency := "USD", expense_date := "2025-01-16", status := .Pending
    approved_amount := .null, rule_id := none, current_step_id := none }

/-- The three steps of the sample rule. -/
def sampleSteps : List ApprovalStep :=
  [⟨11, 1, 10⟩, ⟨12, 1, 20⟩, ⟨13, 1, 30⟩]

/-- The sample store, with an empty approval history. -/
def sampleDb : Db :=
  { companies := [⟨1, "Acme", "USD"⟩, ⟨2, "Globex", "EUR"⟩]
    users := [⟨1, 1, "a@acme.test", "Manager", "A"⟩, ⟨2, 1, "b@acme.test", "Manager", "B"⟩,
      ⟨3, 2, "c@globex.test", "Manager", "C"⟩, ⟨4, 1, "e@acme.test", "Employee", "E"⟩]
    expenses := [sampleSeqExpense, sampleQuorumExpense]
    approval_rules := [⟨1, 1, "SEQUENTIAL"⟩]
    approval_steps := sampleSteps
    approval_history := [] }

/-- A request of manager `approverId` of company `companyId` on expense `expenseId`,
without comments. -/
def sampleRequest (expenseId approverId companyId : Nat) (action : String)
    (approved_amount : JsValue) : Request :=
  { expenseId := expenseId, action := .string action, comments := .undefined
    approved_amount := approved_amount
    user := { id := approverId, role := "Manager", company_id := companyId } }

/-- The sample store with expense 7 moved to the last step of its rule. -/
def sampleDbLastStep : Db :=
  { sampleDb with
    expenses := [{ sampleSeqExpense with current_step_id := some 13 }, sampleQuorumExpense] }

/-- Three approvals of expense 7 by managers 1, 2 and 1; the first supplies 10, the second
no amount, the third 42.50. -/
def sampleSeqRun : List Request :=
  [sampleRequest 7 1 1 "Approved" (.number 10), sampleRequest 7 2 1 "Approved" .undefined,
    sampleRequest 7 1 1 "Approved" (.number (85 / 2))]

/-- The sample store after manager 1 has approved expense 8. -/
def sampleDbOneApproval : Db :=
  { sampleDb with
    approval_history :=
      [{ expense_id := 8, approver_id := 1, action := .Approved
         step_approved_amount := .null, comments := .null }] }

/-- Whether every Manager-role user of company `companyId` has an `Approved` history entry
for expense `expenseId`. -/
def everyManagerApproved (db : Db) (companyId expenseId : Nat) : Bool :=
  db.users.all (fun u =>
    !(decide (u.company_id = companyId ∧ u.role = "Manager")) ||
    db.approval_history.any (fun h =>
      decide (h.expense_id = expenseId ∧ h.approver_id = u.id ∧ h.action = .Approved)))

/-! ## Further definitions on the handler -/

/-- The state seen inside the transaction at the point where control leaves the `try`
block. -/
def TryResult.work : TryResult → Db
  | .completed w => w
  | .returned _ w => w
  | .threw w => w

/-- The 500 response of the `catch` block. -/
def serverError : Response :=
  ⟨500, "Server error while processing the expense action."⟩

/-- The lower-case spelling of a status. -/
def Status.toLowerCase : Status → String
  | .Pending => "pending"
  | .Approved => "approved"
  | .Rejected => "rejected"

/-- The success message of the handler with the status `s` as the word it names. -/
def successMessage (s : Status) : String :=
  "Expense successfully " ++ s.toLowerCase ++ "."

/-- The sample store with expense 7 pointing to a step that does not exist. -/
def sampleDbDangling : Db :=
  { sampleDb with
    expenses := [{ sampleSeqExpense with current_step_id := some 99 }, sampleQuorumExpense] }

/-- The history rows of expense `expenseId`. -/
def historyOf (db : Db) (expenseId : Nat) : List HistoryEntry :=
  db.approval_history.filter (fun h => h.expense_id = expenseId)

/-! ## The manager dashboard (`src/ManagerDashboardPage.js`) -/

/-- An element of `pendingData.expenses` as the dashboard holds it; `converted_amount` is
`undefined` when the server attached none. -/
structure PendingExpense where
  id : Nat
  amount : JsValue
  currency : String
  converted_amount : JsValue
  deriving DecidableEq, Repr

/-- The component state `editingExpense`. -/
structure EditingExpense where
  id : Option Nat
  amount : JsValue
  deriving DecidableEq, Repr

/-- The function `handleStartEdit`: the state gets the id of the expense and, as amount,
`expense.converted_amount || expense.amount`. -/
def handleStartEdit (expense : PendingExpense) : EditingExpense :=
  { id := some expense.id
    amount :=
      if expense.converted_amount.truthy then expense.converted_amount else expense.amount }

/-- The object `body` that `handleAction` serialises; a key that is not set reads
`undefined` on the server. -/
structure ActionBody where
  action : JsValue
  approved_amount : JsValue
  deriving DecidableEq, Repr

/-- The body built by `handleAction(expenseId, action, amount)`: the action, and the amount
as `approved_amount` when the action is `'Approved'`. -/
def handleActionBody (action : String) (amount : JsValue) : ActionBody :=
  { action := .string action
    approved_amount := if action = "Approved" then amount else .undefined }

/-- The request the handler reads when caller `user` posts `body` to
`/api/manager/action-expense/:expenseId`. -/
def dashboardRequest (user : ReqUser) (expenseId : Nat) (body : ActionBody) : Request :=
  { expenseId := expenseId, action := body.action, comments := .undefined
    approved_amount := body.approved_amount, user := user }

/-- A click on "Approve" (`handleStartEdit(exp)`) followed, with the amount field left as
it is, by a click on the confirm button
(`handleAction(exp.id, 'Approved', editingExpense.amount)`). -/
def approveUnchanged (user : ReqUser) (exp : PendingExpense) : Request :=
  dashboardRequest user exp.id (handleActionBody "Approved" (handleStartEdit exp).amount)

/-- An expense of company 2 (default currency EUR, one manager) in USD, without rule. -/
def sampleForeignExpense : Expense :=
  { id := 9, employee_id := 5, company_id := 2, category := "Travel", description := "Hotel"
    amount := 100, currency := "USD", expense_date := "2025-02-01", status := .Pending
    approved_amount := .null, rule_id := none, current_step_id := none }

/-- The sample store with the employee 5 of company 2 and the expense 9. -/
def sampleDbForeign : Db :=
  { sampleDb with
    users := sampleDb.users ++ [⟨5, 2, "f@globex.test", "Employee", "F"⟩]
    expenses := sampleDb.expenses ++ [sampleForeignExpense] }

/-- Expense 9 as the pending list shows it to manager 3, with a converted amount. -/
def samplePending : PendingExpense :=
  { id := 9, amount := .string "100.00", currency := "USD"
    converted_amount := .string "92.50" }

/-! ## Expense submission (`POST /api/expenses`) -/

/-- What the submission handler reads from a request: the body and `req.user`. -/
structure SubmitRequest where
  category : String
  description : String
  amount : Rat
  currency : String
  expense_date : String
  user : ReqUser
  deriving DecidableEq, Repr

/-- The response `res.status(201).json(...)` of a submission. -/
structure SubmitResponse where
  status : Nat
  message : String
  expenseId : Nat
  deriving DecidableEq, Repr

/-- Rows of `SELECT id FROM approval_rules WHERE company_id = ? AND
rule_type = 'SEQUENTIAL' LIMIT 1`. -/
def selectSequentialRule (db : Db) (companyId : Nat) : List ApprovalRule :=
  (db.approval_rules.filter
    (fun r => r.company_id = companyId ∧ r.rule_type = "SEQUENTIAL")).take 1

/-- The value `rules.length > 0 ? rules[0].id : null`. -/
def submitRuleId (db : Db) (companyId : Nat) : Option Nat :=
  match (selectSequentialRule db companyId).head? with
  | some r => some r.id
  | none => none

/-- Rows of `SELECT id FROM approval_steps WHERE rule_id = ? ORDER BY step_sequence ASC
LIMIT 1`. -/
def selectFirstStep (db : Db) (ruleId : Option Nat) : List ApprovalStep :=
  (orderBySequence (db.approval_steps.filter (fun s => some s.rule_id = ruleId))).take 1

/-- The value of `firstStepId`: `null`, replaced by `steps[0].id` when `ruleId` is truthy
and the step query returns a row. -/
def submitFirstStepId (db : Db) (ruleId : Option Nat) : Option Nat :=
  if idTruthy ruleId then
    match (selectFirstStep db ruleId).head? with
    | some s => some s.id
    | none => none
  else none

/-- Modelled from the spec: the values of the columns of `expenses` that the INSERT of the
submission does not list (the schema is not among the sources): an expense is created with
status `Pending` and without approved_amount.  The listed columns take the parameters of the
INSERT; `insertId` is the key the store assigns. -/
def insertedExpense (insertId : Nat) (req : SubmitRequest) (ruleId firstStepId : Option Nat) :
    Expense :=
  { id := insertId, employee_id := req.user.id, company_id := req.user.company_id
    category := req.category, description := req.description, amount := req.amount
    currency := req.currency, expense_date := req.expense_date
    status := .Pending, approved_amount := .null
    rule_id := ruleId, current_step_id := firstStepId }

/-- The handler of `POST /api/expenses`, with `insertId` the key assigned by the store. -/
def submitExpense (db : Db) (req : SubmitRequest) (insertId : Nat) : SubmitResponse × Db :=
  let ruleId := submitRuleId db req.user.company_id
  let firstStepId := submitFirstStepId db ruleId
  (⟨201, "Expense submitted successfully!", insertId⟩,
    { db with
      expenses := db.expenses ++ [insertedExpense insertId req ruleId firstStepId] })

/-- A submission by employee 4 of company 1. -/
def sampleSubmit : SubmitRequest :=
  { category := "Travel", description := "Train", amount := 30, currency := "USD"
    expense_date := "2025-03-01", user := { id := 4, role := "Employee", company_id := 1 } }

/-- A submission by employee 5 of company 2, which has no rule. -/
def sampleSubmitNoRule : SubmitRequest :=
  { category := "Travel", description := "Bus", amount := 12, currency := "EUR"
    expense_date := "2025-03-02", user := { id := 5, role := "Employee", company_id := 2 } }

/-! ## The route and the frame of the handler -/

/-- The 403 response of the middleware `isManager`. -/
def forbidden : Response :=
  ⟨403, "Forbidden: Access is restricted to Managers."⟩

/-- The middleware `isManager` followed by the handler, for a caller `req.user` that the
authentication middleware has already established. -/
def actionExpenseRoute (db : Db) (req : Request) : Outcome :=
  if req.user.role ≠ "Manager" then ⟨forbidden, db, none, []⟩
  else actionExpense db req

/-- Row `e'` agrees with row `e` on every column other than status, approved_amount and
current_step_id, and is `e` itself when `e` is not the expense `expenseId`. -/
def frameRow (expenseId : Nat) (e e' : Expense) : Prop :=
  e'.id = e.id ∧ e'.employee_id = e.employee_id ∧ e'.company_id = e.company_id ∧
  e'.category = e.category ∧ e'.description = e.description ∧ e'.amount = e.amount ∧
  e'.currency = e.currency ∧ e'.expense_date = e.expense_date ∧ e'.rule_id = e.rule_id ∧
  (e.id ≠ expenseId → e' = e)

/-- Store `db'` differs from `db` at most in the approval history and, row by row, in the
status, approved_amount and current_step_id of the expense `expenseId`. -/
def frameDb (expenseId : Nat) (db db' : Db) : Prop :=
  db'.companies = db.companies ∧ db'.users = db.users ∧
  db'.approval_rules = db.approval_rules ∧ db'.approval_steps = db.approval_steps ∧
  List.Forall₂ (frameRow expenseId) db.expenses db'.expenses

/-! ## The rate lookups of the pending list (`GET /api/manager/pending-expenses`) -/

/-- The property names every object inherits from `Object.prototype`.  Reading one of them
on the plain object `ratesCache` gives a function or an object, which is truthy. -/
def objectPrototypeKeys : List String :=
  ["constructor", "__defineGetter__", "__defineSetter__", "hasOwnProperty",
    "__lookupGetter__", "__lookupSetter__", "isPrototypeOf", "propertyIsEnumerable",
    "toString", "valueOf", "__proto__", "toLocaleString"]

/-- The outcome of `axios.get` for one currency: the call throws, or `data.rates` is read
from the reply (`none` when the reply has no such field). -/
inductive RateReply where
  | failed
  | replied (rates : Option (List (String × Rat)))
  deriving DecidableEq, Repr

/-- The state of the lookup loop: the own properties of `ratesCache`, latest first, and the
currencies for which `axios.get` has been called, in order. -/
structure LookupState where
  ratesCache : List (String × Option (List (String × Rat)))
  attempted : List String
  deriving DecidableEq, Repr

/-- Truthiness of `ratesCache[currency]`: an own property holds a rates object (truthy) or
`undefined`; without an own property the read goes to `Object.prototype`. -/
def cacheTruthy (ratesCache : List (String × Option (List (String × Rat))))
    (currency : String) : Bool :=
  match ratesCache.lookup currency with
  | some (some _) => true
  | some none => false
  | none => decide (currency ∈ objectPrototypeKeys)

/-- The list `[...new Set(values)]`: the values in order of first occurrence. -/
def uniqueValues : List String → List String
  | [] => []
  | a :: l => a :: (uniqueValues l).filter (fun b => b ≠ a)

/-- One round of `for (const currency of uniqueCurrencies)`. -/
def lookupStep (lookup : String → RateReply) (default_currency : String) (st : LookupState)
    (currency : String) : LookupState :=
  if currency ≠ default_currency ∧ ¬ cacheTruthy st.ratesCache currency then
    match lookup currency with
    | .replied rates =>
      { ratesCache := (currency, rates) :: st.ratesCache
        attempted := st.attempted ++ [currency] }
    | .failed => { st with attempted := st.attempted ++ [currency] }
  else st

/-- The lookup loop of the pending list over the expenses of the request, with `lookup`
the behaviour of the rate service. -/
def rateLookupLoop (lookup : String → RateReply) (default_currency : String)
    (expenses : List PendingExpense) : LookupState :=
  (uniqueValues (expenses.map (fun exp => exp.currency))).foldl
    (lookupStep lookup default_currency) { ratesCache := [], attempted := [] }

/-- The number of distinct currencies among the expenses that differ from the default
currency. -/
def distinctForeignCurrencies (default_currency : String) (expenses : List PendingExpense) :
    Nat :=
  (((expenses.map (fun exp => exp.currency)).filter
    (fun c => c ≠ default_currency)).dedup).length

/-- A pending list with two expenses in EUR, one in USD and one in GBP. -/
def samplePendingList : List PendingExpense :=
  [⟨20, .string "10.00", "EUR", .undefined⟩, ⟨21, .string "20.00", "USD", .undefined⟩,
    ⟨22, .string "30.00", "EUR", .undefined⟩, ⟨23, .string "40.00", "GBP", .undefined⟩]

/-- A pending list with one expense whose currency was entered as "constructor". -/
def samplePendingOdd : List PendingExpense :=
  [⟨24, .string "10.00", "constructor", .undefined⟩]

/-- A rate service that fails for GBP and replies with a table otherwise. -/
def sampleLookup (currency : String) : RateReply :=
  if currency = "GBP" then .failed else .replied (some [("USD", 1)])

/-! ## Runs with their responses -/

/-- The status codes answered along a run of invocations. -/
def runStatuses (db : Db) : List Request → List Nat
  | [] => []
  | q :: qs => (actionExpense db q).response.status :: runStatuses (actionExpense db q).db qs

/-- Manager 1 rejects expense 7, then manager 2 approves it three times, the last time with
the amount 80. -/
def sampleRejectThenApprove : List Request :=
  [sampleRequest 7 1 1 "Rejected" .undefined, sampleRequest 7 2 1 "Approved" .undefined,
    sampleRequest 7 2 1 "Approved" .undefined, sampleRequest 7 2 1 "Approved" (.number 80)]

/-- Manager 1 rejects expense 8, then manager 2 and manager 3 approve it. -/
def sampleVetoThenApprove : List Request :=
  [sampleRequest 8 1 1 "Rejected" .undefined, sampleRequest 8 2 1 "Approved" .undefined,
    sampleRequest 8 3 2 "Approved" .undefined]

/-- Manager 1 approves expense 7 through its three steps, the last time with the amount 80. -/
def sampleResolveSequential : List Request :=
  [sampleRequest 7 1 1 "Approved" .undefined, sampleRequest 7 1 1 "Approved" .undefined,
    sampleRequest 7 1 1 "Approved" (.number 80)]

/-! ## Lemmas on the queries -/

theorem findExpense_insertHistory (db : Db) (h : HistoryEntry) (expenseId : Nat) :
    findExpense (insertHistory db h) expenseId = findExpense db expenseId := rfl

theorem head?_filter_map_update (l : List Expense) (expenseId : Nat) (f : Expense → Expense)
    (hf : ∀ e, (f e).id = e.id) :
    ((l.map (fun e => if e.id = expenseId then f e else e)).filter
        (fun e => e.id = expenseId)).head?
      = ((l.filter (fun e => e.id = expenseId)).head?).map f := by
  induction l with
  | nil => rfl
  | cons a l ih =>
    by_cases ha : a.id = expenseId
    · simp [List.filter_cons, ha, hf]
    · simpa [List.filter_cons, ha] using ih

theorem findExpense_updateExpense (db : Db) (expenseId : Nat) (f : Expense → Expense)
    (hf : ∀ e, (f e).id = e.id) :
    findExpense (updateExpense db expenseId f) expenseId = (findExpense db expenseId).map f :=
  head?_filter_map_update db.expenses expenseId f hf

theorem mem_updateExpense (db : Db) (expenseId : Nat) (f : Expense → Expense) (e' : Expense)
    (hmem : e' ∈ (updateExpense db expenseId f).expenses) (hid : e'.id = expenseId) :
    ∃ e ∈ db.expenses, e' = f e := by
  simp only [updateExpense, List.mem_map] at hmem
  obtain ⟨e, he, rfl⟩ := hmem
  by_cases h : e.id = expenseId
  · exact ⟨e, he, by simp [h]⟩
  · simp only [h, if_false] at hid

theorem validAction_rejected : validAction (.string "Rejected") = some .Rejected := by decide

theorem validAction_approved : validAction (.string "Approved") = some .Approved := by decide

theorem validAction_eq_none (v : JsValue) (h1 : v ≠ .string "Approved")
    (h2 : v ≠ .string "Rejected") : validAction v = none := by
  cases v with
  | string s =>
    have h1' : s ≠ "Approved" := fun h => h1 (by rw [h])
    have h2' : s ≠ "Rejected" := fun h => h2 (by rw [h])
    simp [validAction, h1', h2']
  | _ => rfl

/-! ## Exit paths of the handler -/

theorem actionExpense_completed (db work : Db) (req : Request) (action : Action)
    (hv : validAction req.action = some action)
    (ht : tryBlock db req action = .completed work) :
    actionExpense db req
      = ⟨⟨200, "Expense successfully " ++ action.toLowerCase ++ "."⟩, work, none,
          [.getConnection, .beginTransaction, .commit, .release]⟩ := by
  simp [actionExpense, hv, ht]

theorem actionExpense_returned (db work : Db) (req : Request) (action : Action)
    (res : Response) (hv : validAction req.action = some action)
    (ht : tryBlock db req action = .returned res work) :
    actionExpense db req
      = ⟨res, db, some work, [.getConnection, .beginTransaction, .release]⟩ := by
  simp [actionExpense, hv, ht]

theorem actionExpense_threw (db work : Db) (req : Request) (action : Action)
    (hv : validAction req.action = some action)
    (ht : tryBlock db req action = .threw work) :
    actionExpense db req
      = ⟨⟨500, "Server error while processing the expense action."⟩, db, none,
          [.getConnection, .beginTransaction, .rollback, .release]⟩ := by
  simp [actionExpense, hv, ht]

theorem tryBlock_rejected (db : Db) (req : Request) (e : Expense)
    (hfind : findExpense db req.expenseId = some e) :
    tryBlock db req .Rejected
      = .completed (updateExpense (insertHistory db (historyRow req .Rejected))
          req.expenseId (setRejected .Rejected)) := by
  simp [tryBlock, hfind]

/-! ## Rejection -/

/-- C1: for every existing expense (whatever its rule, step, status and history) and every
approver, an invocation with action `'Rejected'` commits and leaves the expense, and every
row carrying its id, with status `Rejected` and approved_amount `0`. -/
theorem rejected_action_sets_rejected (db : Db) (req : Request) (e : Expense)
    (hfind : findExpense db req.expenseId = some e)
    (hact : req.action = .string "Rejected") :
    (actionExpense db req).response.status = 200 ∧
    (actionExpense db req).trace = [.getConnection, .beginTransaction, .commit, .release] ∧
    findExpense (actionExpense db req).db req.expenseId
      = some { e with status := .Rejected, approved_amount := .number 0 } ∧
    ∀ e' ∈ (actionExpense db req).db.expenses, e'.id = req.expenseId →
      e'.status = .Rejected ∧ e'.approved_amount = .number 0 := by
  rw [actionExpense_completed db _ req .Rejected (by rw [hact]; exact validAction_rejected)
    (tryBlock_rejected db req e hfind)]
  refine ⟨rfl, rfl, ?_, ?_⟩
  · show findExpense (updateExpense _ req.expenseId (setRejected .Rejected)) req.expenseId = _
    rw [findExpense_updateExpense _ _ (setRejected .Rejected) (fun _ => rfl),
      findExpense_insertHistory, hfind]
    rfl
  · intro e' hmem hid
    obtain ⟨e0, _, rfl⟩ := mem_updateExpense _ _ (setRejected .Rejected) e' hmem hid
    exact ⟨rfl, rfl⟩

/-! ## Sequential flow -/

theorem orderBySequence_head_min (l : List ApprovalStep) (a : ApprovalStep)
    (h : (orderBySequence l).head? = some a) :
    a ∈ l ∧ ∀ b ∈ l, a.step_sequence ≤ b.step_sequence := by
  have hsorted : List.Sorted (fun a b : ApprovalStep => a.step_sequence ≤ b.step_sequence)
      (orderBySequence l) := by
    haveI : IsTotal ApprovalStep (fun a b => a.step_sequence ≤ b.step_sequence) :=
      ⟨fun a b => le_total a.step_sequence b.step_sequence⟩
    haveI : IsTrans ApprovalStep (fun a b => a.step_sequence ≤ b.step_sequence) :=
      ⟨fun _ _ _ hab hbc => le_trans hab hbc⟩
    exact List.sorted_insertionSort _ l
  have hmem : ∀ x, x ∈ orderBySequence l ↔ x ∈ l := fun x => List.mem_insertionSort _
  cases hl : orderBySequence l with
  | nil => rw [hl] at h; cases h
  | cons x rest =>
    rw [hl] at h hsorted
    simp only [List.head?_cons, Option.some.injEq] at h
    subst h
    refine ⟨(hmem x).1 (by rw [hl]; exact List.mem_cons_self _ _), fun b hb => ?_⟩
    have hb' : b ∈ x :: rest := by rw [← hl]; exact (hmem b).2 hb
    rcases List.mem_cons.1 hb' with rfl | hb''
    · exact le_refl _
    · exact List.rel_of_sorted_cons hsorted b hb''

theorem orderBySequence_head_none (l : List ApprovalStep)
    (h : (orderBySequence l).head? = none) : l = [] := by
  have hperm : (orderBySequence l).Perm l := List.perm_insertionSort _ l
  have : orderBySequence l = [] := List.head?_eq_none_iff.1 h
  rw [this] at hperm
  exact hperm.symm.eq_nil

theorem selectNextStep_head? (db : Db) (ruleId : Option Nat) (c : Int) :
    (selectNextStep db ruleId c).head?
      = (orderBySequence (db.approval_steps.filter
          (fun s => some s.rule_id = ruleId ∧ s.step_sequence > c))).head? := by
  unfold selectNextStep
  cases orderBySequence (db.approval_steps.filter
      (fun s => some s.rule_id = ruleId ∧ s.step_sequence > c)) <;> rfl

/-- The row found by the next-step query is a step of the rule, strictly after the current
sequence, and no step of the rule after the current sequence precedes it. -/
theorem selectNextStep_some (db : Db) (ruleId : Option Nat) (c : Int) (nxt : ApprovalStep)
    (h : (selectNextStep db ruleId c).head? = some nxt) :
    nxt ∈ db.approval_steps ∧ some nxt.rule_id = ruleId ∧ c < nxt.step_sequence ∧
    ∀ t ∈ db.approval_steps, some t.rule_id = ruleId → c < t.step_sequence →
      nxt.step_sequence ≤ t.step_sequence := by
  rw [selectNextStep_head?] at h
  obtain ⟨hmem, hmin⟩ := orderBySequence_head_min _ _ h
  simp only [List.mem_filter, decide_eq_true_eq, gt_iff_lt] at hmem
  refine ⟨hmem.1, hmem.2.1, hmem.2.2, fun t ht hr hc => hmin t ?_⟩
  simp only [List.mem_filter, decide_eq_true_eq, gt_iff_lt]
  exact ⟨ht, hr, hc⟩

/-- The next-step query is empty exactly when no step of the rule lies after the current
sequence. -/
theorem selectNextStep_none (db : Db) (ruleId : Option Nat) (c : Int)
    (h : (selectNextStep db ruleId c).head? = none) :
    ∀ t ∈ db.approval_steps, some t.rule_id = ruleId → ¬ c < t.step_sequence := by
  rw [selectNextStep_head?] at h
  have hnil := orderBySequence_head_none _ h
  intro t ht hr hc
  have : t ∈ db.approval_steps.filter
      (fun s => some s.rule_id = ruleId ∧ s.step_sequence > c) := by
    simp only [List.mem_filter, decide_eq_true_eq, gt_iff_lt]
    exact ⟨ht, hr, hc⟩
  rw [hnil] at this
  cases this

theorem selectNextStep_isSome (db : Db) (ruleId : Option Nat) (c : Int)
    (h : ∃ t ∈ db.approval_steps, some t.rule_id = ruleId ∧ c < t.step_sequence) :
    ∃ nxt, (selectNextStep db ruleId c).head? = some nxt := by
  cases hn : (selectNextStep db ruleId c).head? with
  | some nxt => exact ⟨nxt, rfl⟩
  | none =>
    obtain ⟨t, ht, hr, hc⟩ := h
    exact absurd hc (selectNextStep_none db ruleId c hn t ht hr)

theorem finalAmount_eq (work : Db) (expenseId : Nat) (amt : JsValue) (e : Expense)
    (hfind : findExpense work expenseId = some e) :
    finalAmount work expenseId amt
      = some (if amt = .undefined then .number e.amount else amt) := by
  unfold finalAmount
  by_cases h : amt = .undefined
  · simp [h, hfind]
  · simp [h]

theorem bind_finalValue (amt : JsValue) (q : Rat) :
    JsValue.bind (if amt = .undefined then .number q else amt)
      = if amt = .undefined then .number q else amt := by
  cases amt <;> simp [JsValue.bind]

theorem tryBlock_sequential (db : Db) (req : Request) (e : Expense)
    (hfind : findExpense db req.expenseId = some e) (hseq : isSequential e = true) :
    tryBlock db req .Approved
      = sequentialFlow (insertHistory db (historyRow req .Approved)) req .Approved
          e.rule_id e.current_step_id := by
  simp [tryBlock, hfind, hseq]

theorem tryBlock_allManagers (db : Db) (req : Request) (e : Expense)
    (hfind : findExpense db req.expenseId = some e) (hseq : isSequential e = false) :
    tryBlock db req .Approved
      = allManagersFlow (insertHistory db (historyRow req .Approved)) req .Approved
          e.company_id := by
  simp [tryBlock, hfind, hseq]

/-- The sequential flow when a later step exists: the expense moves to the step found. -/
theorem sequentialFlow_advance (work : Db) (req : Request) (ruleId stepId : Option Nat)
    (cur nxt : ApprovalStep) (hcur : (selectStep work stepId).head? = some cur)
    (hnxt : (selectNextStep work ruleId cur.step_sequence).head? = some nxt) :
    sequentialFlow work req .Approved ruleId stepId
      = .completed (updateExpense work req.expenseId (setCurrentStep nxt.id)) := by
  simp [sequentialFlow, hcur, hnxt]

/-- The sequential flow at the last step: the expense is resolved. -/
theorem sequentialFlow_final (work : Db) (req : Request) (ruleId stepId : Option Nat)
    (cur : ApprovalStep) (e : Expense) (hcur : (selectStep work stepId).head? = some cur)
    (hnxt : (selectNextStep work ruleId cur.step_sequence).head? = none)
    (hfind : findExpense work req.expenseId = some e) :
    sequentialFlow work req .Approved ruleId stepId
      = .completed (updateExpense work req.expenseId (setResolvedClearStep .Approved
          (if req.approved_amount = .undefined then .number e.amount
            else req.approved_amount))) := by
  simp [sequentialFlow, hcur, hnxt, finalAmount_eq work req.expenseId req.approved_amount e hfind]

/-! ## Runs of approvals under the sequential policy -/

theorem runActions_cons (db : Db) (q : Request) (reqs : List Request) :
    runActions db (q :: reqs) = runActions (actionExpense db q).db reqs := rfl

theorem head?_filter_id_of_nodup (l : List ApprovalStep) (s : ApprovalStep)
    (hnd : (l.map (fun x => x.id)).Nodup) (hs : s ∈ l) :
    (l.filter (fun x => some x.id = some s.id)).head? = some s := by
  induction l with
  | nil => cases hs
  | cons a l ih =>
    simp only [List.map_cons, List.nodup_cons, List.mem_map, not_exists, not_and] at hnd
    rcases List.mem_cons.1 hs with rfl | hs'
    · simp [List.filter_cons]
    · have hne : a.id ≠ s.id := fun h => hnd.1 s hs' h.symm
      have ih' := ih hnd.2 hs'
      simp only [Option.some.injEq] at ih'
      simpa [List.filter_cons, hne] using ih'

theorem expense_eta_current_step (e : Expense) (sid : Nat)
    (h : e.current_step_id = some sid) : { e with current_step_id := some sid } = e := by
  cases e
  simp only at h
  subst h
  rfl

/-- One approval under the sequential policy when the next-step query finds `nxt`. -/
theorem actionExpense_advance (db : Db) (req : Request) (e : Expense) (cur nxt : ApprovalStep)
    (hfind : findExpense db req.expenseId = some e)
    (hact : req.action = .string "Approved")
    (hseq : isSequential e = true)
    (hcur : (selectStep db e.current_step_id).head? = some cur)
    (hnxt : (selectNextStep db e.rule_id cur.step_sequence).head? = some nxt) :
    (actionExpense db req).response.status = 200 ∧
    (actionExpense db req).db.approval_steps = db.approval_steps ∧
    findExpense (actionExpense db req).db req.expenseId
      = some { e with current_step_id := some nxt.id } := by
  rw [actionExpense_completed db _ req .Approved (by rw [hact]; exact validAction_approved)
    ((tryBlock_sequential db req e hfind hseq).trans
      (sequentialFlow_advance _ req e.rule_id e.current_step_id cur nxt hcur hnxt))]
  refine ⟨rfl, rfl, ?_⟩
  show findExpense (updateExpense _ req.expenseId (setCurrentStep nxt.id)) req.expenseId = _
  rw [findExpense_updateExpense _ _ (setCurrentStep nxt.id) (fun _ => rfl),
    findExpense_insertHistory, hfind]
  rfl

/-- One approval under the sequential policy when the next-step query finds nothing. -/
theorem actionExpense_final (db : Db) (req : Request) (e : Expense) (cur : ApprovalStep)
    (hfind : findExpense db req.expenseId = some e)
    (hact : req.action = .string "Approved")
    (hseq : isSequential e = true)
    (hcur : (selectStep db e.current_step_id).head? = some cur)
    (hnxt : (selectNextStep db e.rule_id cur.step_sequence).head? = none) :
    (actionExpense db req).response.status = 200 ∧
    findExpense (actionExpense db req).db req.expenseId
      = some { e with
          status := .Approved, current_step_id := none
          approved_amount := resolvedAmount req e } := by
  rw [actionExpense_completed db _ req .Approved (by rw [hact]; exact validAction_approved)
    ((tryBlock_sequential db req e hfind hseq).trans
      (sequentialFlow_final _ req e.rule_id e.current_step_id cur e hcur hnxt
        (by rw [findExpense_insertHistory]; exact hfind)))]
  refine ⟨rfl, ?_⟩
  show findExpense (updateExpense _ req.expenseId (setResolvedClearStep .Approved _))
    req.expenseId = _
  rw [findExpense_updateExpense _ _ (setResolvedClearStep .Approved _) (fun _ => rfl),
    findExpense_insertHistory, hfind]
  simp only [Option.map_some', setResolvedClearStep, bind_finalValue, resolvedAmount]
  rfl

theorem isSequential_of_ids (e : Expense) (r sid : Nat) (hr : r ≠ 0) (hs : sid ≠ 0)
    (hrule : e.rule_id = some r) (hstep : e.current_step_id = some sid) :
    isSequential e = true := by
  simp [isSequential, idTruthy, hrule, hstep, hr, hs]

/-- A run of approvals along the remaining steps `cur :: tail` of rule `r`. -/
theorem sequential_run_aux (r : Nat) (hr : r ≠ 0) (expenseId : Nat) :
    ∀ (tail : List ApprovalStep) (cur : ApprovalStep) (reqs : List Request) (db : Db)
      (e : Expense),
      (db.approval_steps.map (fun x => x.id)).Nodup →
      (∀ t ∈ cur :: tail, t ∈ db.approval_steps ∧ t.rule_id = r ∧ t.id ≠ 0) →
      (∀ t ∈ db.approval_steps, t.rule_id = r → cur.step_sequence < t.step_sequence →
        t ∈ tail) →
      (cur :: tail).Pairwise (fun a b => a.step_sequence < b.step_sequence) →
      findExpense db expenseId = some e →
      e.rule_id = some r → e.current_step_id = some cur.id →
      reqs.length = tail.length + 1 →
      (∀ q ∈ reqs, q.expenseId = expenseId ∧ q.action = .string "Approved") →
      (∀ k s, (cur :: tail)[k]? = some s →
        findExpense (runActions db (reqs.take k)) expenseId
          = some { e with current_step_id := some s.id }) ∧
      (∀ k q, reqs[k]? = some q →
        (actionExpense (runActions db (reqs.take k)) q).response.status = 200) ∧
      (∀ q, reqs.getLast? = some q →
        findExpense (runActions db reqs) expenseId
          = some { e with
              status := .Approved, current_step_id := none
              approved_amount := resolvedAmount q e }) := by
  intro tail
  induction tail with
  | nil =>
    intro cur reqs db e hnd hmem hall _ hfind hrule hstep hlen hreqs
    obtain ⟨q0, rfl⟩ : ∃ q0, reqs = [q0] := by
      match reqs, hlen with
      | [q0], _ => exact ⟨q0, rfl⟩
    obtain ⟨hid, hact⟩ := hreqs q0 (List.mem_singleton.2 rfl)
    obtain ⟨hcmem, _, hcid⟩ := hmem cur (List.mem_singleton.2 rfl)
    have hseq := isSequential_of_ids e r cur.id hr hcid hrule hstep
    have hcur : (selectStep db e.current_step_id).head? = some cur := by
      rw [hstep]; exact head?_filter_id_of_nodup _ cur hnd hcmem
    have hnxt : (selectNextStep db e.rule_id cur.step_sequence).head? = none := by
      cases hn : (selectNextStep db e.rule_id cur.step_sequence).head? with
      | none => rfl
      | some nxt =>
        obtain ⟨h1, h2, h3, _⟩ := selectNextStep_some db e.rule_id cur.step_sequence nxt hn
        rw [hrule, Option.some.injEq] at h2
        exact absurd (hall nxt h1 h2 h3) (List.not_mem_nil _)
    have hfind' : findExpense db q0.expenseId = some e := by rw [hid]; exact hfind
    obtain ⟨hok, hres⟩ := actionExpense_final db q0 e cur hfind' hact hseq hcur hnxt
    rw [hid] at hres
    refine ⟨?_, ?_, ?_⟩
    · intro k s hk
      cases k with
      | zero =>
        simp only [List.getElem?_cons_zero, Option.some.injEq] at hk
        subst hk
        rw [expense_eta_current_step e _ hstep]
        exact hfind
      | succ k => simp at hk
    · intro k q hk
      cases k with
      | zero =>
        simp only [List.getElem?_cons_zero, Option.some.injEq] at hk
        subst hk
        exact hok
      | succ k => simp at hk
    · intro q hq
      simp only [List.getLast?_singleton, Option.some.injEq] at hq
      subst hq
      exact hres
  | cons t1 tail ih =>
    intro cur reqs db e hnd hmem hall hpw hfind hrule hstep hlen hreqs
    obtain ⟨q0, reqs', rfl⟩ : ∃ q0 reqs', reqs = q0 :: reqs' := by
      match reqs, hlen with
      | q0 :: reqs', _ => exact ⟨q0, reqs', rfl⟩
    have hlen' : reqs'.length = tail.length + 1 := by simpa using hlen
    obtain ⟨hid, hact⟩ := hreqs q0 (List.mem_cons_self _ _)
    obtain ⟨hcmem, _, hcid⟩ := hmem cur (List.mem_cons_self _ _)
    obtain ⟨ht1mem, ht1rule, ht1id⟩ := hmem t1 (List.mem_cons_of_mem _ (List.mem_cons_self _ _))
    have hpw' := List.pairwise_cons.1 hpw
    have hpw'' := List.pairwise_cons.1 hpw'.2
    have hct1 : cur.step_sequence < t1.step_sequence := hpw'.1 t1 (List.mem_cons_self _ _)
    have hseq := isSequential_of_ids e r cur.id hr hcid hrule hstep
    have hcur : (selectStep db e.current_step_id).head? = some cur := by
      rw [hstep]; exact head?_filter_id_of_nodup _ cur hnd hcmem
    obtain ⟨nxt, hnxt⟩ := selectNextStep_isSome db e.rule_id cur.step_sequence
      ⟨t1, ht1mem, by rw [hrule, ht1rule], hct1⟩
    have hnxt_eq : nxt = t1 := by
      obtain ⟨h1, h2, h3, h4⟩ := selectNextStep_some db e.rule_id cur.step_sequence nxt hnxt
      rw [hrule, Option.some.injEq] at h2
      rcases List.mem_cons.1 (hall nxt h1 h2 h3) with h | h
      · exact h
      · have hlt : t1.step_sequence < nxt.step_sequence := hpw''.1 nxt h
        have hle := h4 t1 ht1mem (by rw [hrule, ht1rule]) hct1
        exact absurd hlt (not_lt.2 hle)
    subst hnxt_eq
    have hfind' : findExpense db q0.expenseId = some e := by rw [hid]; exact hfind
    obtain ⟨hok, hsteps, hres⟩ :=
      actionExpense_advance db q0 e cur nxt hfind' hact hseq hcur hnxt
    rw [hid] at hres
    obtain ⟨ih1, ih2, ih3⟩ := ih nxt reqs' (actionExpense db q0).db
      { e with current_step_id := some nxt.id }
      (by rw [hsteps]; exact hnd)
      (fun t ht => by rw [hsteps]; exact hmem t (List.mem_cons_of_mem _ ht))
      (fun t ht htr hlt => by
        rw [hsteps] at ht
        rcases List.mem_cons.1 (hall t ht htr (lt_trans hct1 hlt)) with h | h
        · rw [h] at hlt; exact absurd hlt (lt_irrefl _)
        · exact h)
      hpw'.2 hres hrule rfl hlen'
      (fun q hq => hreqs q (List.mem_cons_of_mem _ hq))
    refine ⟨?_, ?_, ?_⟩
    · intro k s hk
      cases k with
      | zero =>
        simp only [List.getElem?_cons_zero, Option.some.injEq] at hk
        subst hk
        rw [expense_eta_current_step e _ hstep]
        exact hfind
      | succ k =>
        rw [List.getElem?_cons_succ] at hk
        rw [List.take_succ_cons, runActions_cons]
        exact ih1 k s hk
    · intro k q hk
      cases k with
      | zero =>
        simp only [List.getElem?_cons_zero, Option.some.injEq] at hk
        subst hk
        exact hok
      | succ k =>
        rw [List.getElem?_cons_succ] at hk
        rw [List.take_succ_cons, runActions_cons]
        exact ih2 k q hk
    · intro q hq
      obtain ⟨q1, rest, rfl⟩ : ∃ q1 rest, reqs' = q1 :: rest := by
        match reqs', hlen' with
        | q1 :: rest, _ => exact ⟨q1, rest, rfl⟩
      rw [List.getLast?_cons_cons] at hq
      rw [runActions_cons]
      exact ih3 q hq

/-! ## Fallback flow: all managers approve -/

theorem selectExistingAction_insertHistory (db : Db) (req : Request) (action : Action) :
    selectExistingAction (insertHistory db (historyRow req action)) req.expenseId req.user.id
      = selectExistingAction db req.expenseId req.user.id ++ [historyRow req action] := by
  simp [selectExistingAction, insertHistory, List.filter_append, historyRow]

theorem selectExistingAction_insertHistory_other (db : Db) (req : Request) (action : Action)
    (expenseId approverId : Nat) (h : req.user.id ≠ approverId) :
    selectExistingAction (insertHistory db (historyRow req action)) expenseId approverId
      = selectExistingAction db expenseId approverId := by
  simp [selectExistingAction, insertHistory, List.filter_append, historyRow, h]

theorem countApprovals_insertHistory (db : Db) (req : Request) :
    countApprovals (insertHistory db (historyRow req .Approved)) req.expenseId
      = countApprovals db req.expenseId + 1 := by
  simp [countApprovals, insertHistory, List.filter_append, historyRow]

theorem selectExistingAction_eq_nil_iff (db : Db) (expenseId approverId : Nat) :
    selectExistingAction db expenseId approverId = []
      ↔ ∀ h ∈ db.approval_history, ¬ (h.expense_id = expenseId ∧ h.approver_id = approverId) := by
  simp [selectExistingAction, List.filter_eq_nil_iff]

/-- The fallback flow for an approver with an earlier entry for the expense: the handler
leaves the `try` block through the `return` of the 409 response. -/
theorem allManagersFlow_duplicate (db : Db) (req : Request) (companyId : Nat)
    (hold : selectExistingAction db req.expenseId req.user.id ≠ []) :
    allManagersFlow (insertHistory db (historyRow req .Approved)) req .Approved companyId
      = .returned duplicateAction (insertHistory db (historyRow req .Approved)) := by
  have hlen : 0 < (selectExistingAction db req.expenseId req.user.id).length :=
    List.length_pos.2 hold
  have : (selectExistingAction db req.expenseId req.user.id).length + 1 > 1 := by omega
  simp [allManagersFlow, selectExistingAction_insertHistory, this]

/-- The fallback flow for an approver without an earlier entry for the expense. -/
theorem allManagersFlow_fresh (db : Db) (req : Request) (e : Expense)
    (hfind : findExpense db req.expenseId = some e)
    (hnew : selectExistingAction db req.expenseId req.user.id = []) :
    allManagersFlow (insertHistory db (historyRow req .Approved)) req .Approved e.company_id
      = if countManagers db e.company_id ≤ countApprovals db req.expenseId + 1 then
          .completed (updateExpense (insertHistory db (historyRow req .Approved)) req.expenseId
            (setResolved .Approved (resolvedAmount req e)))
        else .completed (insertHistory db (historyRow req .Approved)) := by
  have hfind' : findExpense (insertHistory db (historyRow req .Approved)) req.expenseId
      = some e := hfind
  have hm : countManagers (insertHistory db (historyRow req .Approved)) e.company_id
      = countManagers db e.company_id := rfl
  simp only [allManagersFlow, selectExistingAction_insertHistory, hnew, List.nil_append,
    List.length_singleton, gt_iff_lt, lt_self_iff_false, if_false, ge_iff_le,
    countApprovals_insertHistory, hm,
    finalAmount_eq _ req.expenseId req.approved_amount e hfind', resolvedAmount]

/-- One approval under the fallback policy by an approver without an earlier entry. -/
theorem actionExpense_quorum (db : Db) (req : Request) (e : Expense)
    (hfind : findExpense db req.expenseId = some e)
    (hact : req.action = .string "Approved")
    (hq : isSequential e = false)
    (hnew : selectExistingAction db req.expenseId req.user.id = []) :
    (actionExpense db req).response.status = 200 ∧
    (actionExpense db req).db.users = db.users ∧
    (actionExpense db req).db.approval_history
      = db.approval_history ++ [historyRow req .Approved] ∧
    findExpense (actionExpense db req).db req.expenseId
      = some (if countManagers db e.company_id ≤ countApprovals db req.expenseId + 1 then
          { e with status := .Approved, approved_amount := resolvedAmount req e }
        else e) := by
  have ht := (tryBlock_allManagers db req e hfind hq).trans
    (allManagersFlow_fresh db req e hfind hnew)
  have hv : validAction req.action = some .Approved := by rw [hact]; exact validAction_approved
  by_cases hc : countManagers db e.company_id ≤ countApprovals db req.expenseId + 1
  · rw [if_pos hc] at ht
    rw [actionExpense_completed db _ req .Approved hv ht, if_pos hc]
    refine ⟨rfl, rfl, rfl, ?_⟩
    show findExpense (updateExpense _ req.expenseId (setResolved .Approved _)) req.expenseId = _
    rw [findExpense_updateExpense _ _ (setResolved .Approved _) (fun _ => rfl),
      findExpense_insertHistory, hfind]
    simp only [Option.map_some', setResolved, resolvedAmount, bind_finalValue]
    rfl
  · rw [if_neg hc] at ht
    rw [actionExpense_completed db _ req .Approved hv ht, if_neg hc]
    exact ⟨rfl, rfl, rfl, hfind⟩

theorem isSequential_update (e : Expense) (st : Status) (amt : JsValue) :
    isSequential { e with status := st, approved_amount := amt } = isSequential e := rfl

theorem run_status_cons (db : Db) (q0 : Request) (reqs : List Request)
    (h0 : (actionExpense db q0).response.status = 200)
    (hs : ∀ k q, reqs[k]? = some q →
      (actionExpense (runActions (actionExpense db q0).db (reqs.take k)) q).response.status
        = 200) :
    ∀ k q, (q0 :: reqs)[k]? = some q →
      (actionExpense (runActions db ((q0 :: reqs).take k)) q).response.status = 200 := by
  intro k q hk
  cases k with
  | zero =>
    simp only [List.getElem?_cons_zero, Option.some.injEq] at hk
    subst hk
    exact h0
  | succ k =>
    rw [List.getElem?_cons_succ] at hk
    rw [List.take_succ_cons, runActions_cons]
    exact hs k q hk

/-- A run of approvals under the fallback policy by approvers without earlier entries. -/
theorem quorum_run_aux (expenseId M : Nat) :
    ∀ (reqs : List Request) (db : Db) (e : Expense),
      findExpense db expenseId = some e →
      isSequential e = false →
      countManagers db e.company_id = M →
      (∀ q ∈ reqs, selectExistingAction db expenseId q.user.id = []) →
      (reqs.map (fun q => q.user.id)).Nodup →
      (∀ q ∈ reqs, q.expenseId = expenseId ∧ q.action = .string "Approved") →
      (∀ k q, reqs[k]? = some q →
        (actionExpense (runActions db (reqs.take k)) q).response.status = 200) ∧
      (countApprovals db expenseId + reqs.length < M →
        findExpense (runActions db reqs) expenseId = some e) ∧
      (∀ q, reqs.getLast? = some q → M ≤ countApprovals db expenseId + reqs.length →
        findExpense (runActions db reqs) expenseId
          = some { e with status := .Approved, approved_amount := resolvedAmount q e }) := by
  intro reqs
  induction reqs with
  | nil =>
    intro db e hfind _ _ _ _ _
    refine ⟨fun k q hk => by simp at hk, fun _ => hfind, fun q hq => by simp at hq⟩
  | cons q0 reqs ih =>
    intro db e hfind hq hM hnew hnd hreqs
    obtain ⟨hid, hact⟩ := hreqs q0 (List.mem_cons_self _ _)
    have hnd' := List.nodup_cons.1 hnd
    have hfind0 : findExpense db q0.expenseId = some e := by rw [hid]; exact hfind
    have hnew0 : selectExistingAction db q0.expenseId q0.user.id = [] := by
      rw [hid]; exact hnew q0 (List.mem_cons_self _ _)
    obtain ⟨hok, husers, hhist, hres⟩ := actionExpense_quorum db q0 e hfind0 hact hq hnew0
    rw [hid, hM] at hres
    have hcount : countApprovals (actionExpense db q0).db expenseId
        = countApprovals db expenseId + 1 := by
      have := countApprovals_insertHistory db q0
      rw [hid] at this
      rw [← this]
      simp only [countApprovals, hhist, insertHistory]
    have hnew1 : ∀ q ∈ reqs, selectExistingAction (actionExpense db q0).db expenseId q.user.id
        = [] := by
      intro q hqm
      have hne : q0.user.id ≠ q.user.id := by
        intro h
        exact hnd'.1 (List.mem_map.2 ⟨q, hqm, h.symm⟩)
      have := selectExistingAction_insertHistory_other db q0 .Approved expenseId q.user.id hne
      rw [hnew q (List.mem_cons_of_mem _ hqm)] at this
      rw [← this]
      simp only [selectExistingAction, hhist, insertHistory]
    have hM1 : ∀ c : Nat, countManagers (actionExpense db q0).db c = countManagers db c := by
      intro c
      simp only [countManagers, husers]
    have hreqs1 : ∀ q ∈ reqs, q.expenseId = expenseId ∧ q.action = .string "Approved" :=
      fun q hqm => hreqs q (List.mem_cons_of_mem _ hqm)
    by_cases hc : M ≤ countApprovals db expenseId + 1
    · rw [if_pos hc] at hres
      obtain ⟨ih1, _, ih3⟩ := ih (actionExpense db q0).db
        { e with status := .Approved, approved_amount := resolvedAmount q0 e }
        hres hq (by rw [hM1]; exact hM) hnew1 hnd'.2 hreqs1
      refine ⟨?_, ?_, ?_⟩
      · exact run_status_cons db q0 reqs hok ih1
      · intro hlt
        simp only [List.length_cons] at hlt
        omega
      · intro q hlast _
        cases reqs with
        | nil =>
          simp only [List.getLast?_singleton, Option.some.injEq] at hlast
          subst hlast
          exact hres
        | cons q1 rest =>
          rw [List.getLast?_cons_cons] at hlast
          rw [runActions_cons]
          exact ih3 q hlast (by rw [hcount]; simp only [List.length_cons]; omega)
    · rw [if_neg hc] at hres
      obtain ⟨ih1, ih2, ih3⟩ := ih (actionExpense db q0).db e
        hres hq (by rw [hM1]; exact hM) hnew1 hnd'.2 hreqs1
      refine ⟨?_, ?_, ?_⟩
      · exact run_status_cons db q0 reqs hok ih1
      · intro hlt
        rw [runActions_cons]
        exact ih2 (by rw [hcount]; simp only [List.length_cons] at hlt; omega)
      · intro q hlast hle
        cases reqs with
        | nil =>
          simp only [List.length_cons, List.length_nil] at hle
          omega
        | cons q1 rest =>
          rw [List.getLast?_cons_cons] at hlast
          rw [runActions_cons]
          exact ih3 q hlast (by rw [hcount]; simp only [List.length_cons] at hle ⊢; omega)

/-- C2: under the sequential policy, when some step of the expense's rule has a
step_sequence greater than the current step's, an `'Approved'` action commits and sets the
current step to a step `nxt` of the same rule whose step_sequence is the smallest one
strictly greater than the current one (no step of the rule lies strictly between); every
other column of the expense, status and approved_amount included, is unchanged. -/
theorem approved_advances_to_next_step (db : Db) (req : Request) (e : Expense)
    (cur : ApprovalStep)
    (hfind : findExpense db req.expenseId = some e)
    (hact : req.action = .string "Approved")
    (hseq : isSequential e = true)
    (hcur : (selectStep db e.current_step_id).head? = some cur)
    (hlater : ∃ t ∈ db.approval_steps,
      some t.rule_id = e.rule_id ∧ cur.step_sequence < t.step_sequence) :
    ∃ nxt ∈ db.approval_steps,
      some nxt.rule_id = e.rule_id ∧ cur.step_sequence < nxt.step_sequence ∧
      (∀ t ∈ db.approval_steps, some t.rule_id = e.rule_id →
        cur.step_sequence < t.step_sequence → nxt.step_sequence ≤ t.step_sequence) ∧
      (∀ t ∈ db.approval_steps, some t.rule_id = e.rule_id →
        ¬ (cur.step_sequence < t.step_sequence ∧ t.step_sequence < nxt.step_sequence)) ∧
      (actionExpense db req).response.status = 200 ∧
      (actionExpense db req).trace = [.getConnection, .beginTransaction, .commit, .release] ∧
      findExpense (actionExpense db req).db req.expenseId
        = some { e with current_step_id := some nxt.id } ∧
      (e.status = .Pending → ∀ e', findExpense (actionExpense db req).db req.expenseId = some e' →
        e'.status = .Pending ∧ e'.approved_amount = e.approved_amount) := by
  obtain ⟨nxt, hnxt⟩ := selectNextStep_isSome db e.rule_id cur.step_sequence hlater
  obtain ⟨hmem, hrule, hlt, hmin⟩ := selectNextStep_some db e.rule_id cur.step_sequence nxt hnxt
  have hres : findExpense (actionExpense db req).db req.expenseId
      = some { e with current_step_id := some nxt.id } := by
    rw [actionExpense_completed db _ req .Approved (by rw [hact]; exact validAction_approved)
      ((tryBlock_sequential db req e hfind hseq).trans
        (sequentialFlow_advance _ req e.rule_id e.current_step_id cur nxt hcur hnxt))]
    show findExpense (updateExpense _ req.expenseId (setCurrentStep nxt.id)) req.expenseId = _
    rw [findExpense_updateExpense _ _ (setCurrentStep nxt.id) (fun _ => rfl),
      findExpense_insertHistory, hfind]
    rfl
  refine ⟨nxt, hmem, hrule, hlt, hmin, ?_, ?_, ?_, hres, ?_⟩
  · intro t ht hr ⟨h1, h2⟩
    exact absurd (hmin t ht hr h1) (not_le.2 h2)
  · rw [actionExpense_completed db _ req .Approved (by rw [hact]; exact validAction_approved)
      ((tryBlock_sequential db req e hfind hseq).trans
        (sequentialFlow_advance _ req e.rule_id e.current_step_id cur nxt hcur hnxt))]
  · rw [actionExpense_completed db _ req .Approved (by rw [hact]; exact validAction_approved)
      ((tryBlock_sequential db req e hfind hseq).trans
        (sequentialFlow_advance _ req e.rule_id e.current_step_id cur nxt hcur hnxt))]
  · intro hp e' he'
    rw [hres] at he'
    cases he'
    exact ⟨hp, rfl⟩

/-- C3: under the sequential policy, when no step of the expense's rule has a step_sequence
greater than the current step's, an `'Approved'` action commits, sets status `Approved`,
clears the current step, and sets approved_amount to the caller-supplied approved_amount
when one is present in the request and to the expense's stored amount otherwise. -/
theorem approved_at_last_step_resolves (db : Db) (req : Request) (e : Expense)
    (cur : ApprovalStep)
    (hfind : findExpense db req.expenseId = some e)
    (hact : req.action = .string "Approved")
    (hseq : isSequential e = true)
    (hcur : (selectStep db e.current_step_id).head? = some cur)
    (hlast : ∀ t ∈ db.approval_steps, some t.rule_id = e.rule_id →
      ¬ cur.step_sequence < t.step_sequence) :
    (actionExpense db req).response.status = 200 ∧
    (actionExpense db req).trace = [.getConnection, .beginTransaction, .commit, .release] ∧
    findExpense (actionExpense db req).db req.expenseId
      = some { e with
          status := .Approved
          current_step_id := none
          approved_amount :=
            if req.approved_amount = .undefined then .number e.amount
            else req.approved_amount } := by
  have hnone : (selectNextStep db e.rule_id cur.step_sequence).head? = none := by
    cases hn : (selectNextStep db e.rule_id cur.step_sequence).head? with
    | none => rfl
    | some nxt =>
      obtain ⟨hmem, hrule, hlt, _⟩ := selectNextStep_some db e.rule_id cur.step_sequence nxt hn
      exact absurd hlt (hlast nxt hmem hrule)
  rw [actionExpense_completed db _ req .Approved (by rw [hact]; exact validAction_approved)
    ((tryBlock_sequential db req e hfind hseq).trans
      (sequentialFlow_final _ req e.rule_id e.current_step_id cur e hcur hnone
        (by rw [findExpense_insertHistory]; exact hfind)))]
  refine ⟨rfl, rfl, ?_⟩
  show findExpense (updateExpense _ req.expenseId (setResolvedClearStep .Approved _))
    req.expenseId = _
  rw [findExpense_updateExpense _ _ (setResolvedClearStep .Approved _) (fun _ => rfl),
    findExpense_insertHistory, hfind]
  simp only [Option.map_some', setResolvedClearStep, bind_finalValue]
  rfl

/-- C4: let rule `r` have `N ≥ 1` steps of strictly increasing step_sequence, and let a
Pending expense stand at the first of them.  In a run of `N` `'Approved'` actions on it every
action commits; after the first `k < N` actions the expense is Pending, positioned at the
`(k+1)`-th step, with approved_amount unchanged; after the `N`-th it is `Approved` with no
current step and with approved_amount the amount of the `N`-th request, or the expense's
amount when that request carries none.  Amounts of earlier requests play no part. -/
theorem sequential_run_resolves (db : Db) (reqs : List Request) (e : Expense)
    (expenseId r : Nat) (first : ApprovalStep)
    (hr : r ≠ 0)
    (hkeys : (db.approval_steps.map (fun x => x.id)).Nodup)
    (hids : ∀ t ∈ ruleSteps db r, t.id ≠ 0)
    (hstrict : (ruleSteps db r).Pairwise (fun a b => a.step_sequence < b.step_sequence))
    (hfirst : (ruleSteps db r).head? = some first)
    (hfind : findExpense db expenseId = some e)
    (hrule : e.rule_id = some r)
    (hstep : e.current_step_id = some first.id)
    (hpend : e.status = .Pending)
    (hlen : reqs.length = (ruleSteps db r).length)
    (hreqs : ∀ q ∈ reqs, q.expenseId = expenseId ∧ q.action = .string "Approved") :
    (∀ k s, (ruleSteps db r)[k]? = some s →
      findExpense (runActions db (reqs.take k)) expenseId
        = some { e with status := .Pending, current_step_id := some s.id }) ∧
    (∀ k q, reqs[k]? = some q →
      (actionExpense (runActions db (reqs.take k)) q).response.status = 200) ∧
    (∀ q, reqs.getLast? = some q →
      findExpense (runActions db reqs) expenseId
        = some { e with
            status := .Approved, current_step_id := none
            approved_amount := resolvedAmount q e }) := by
  have hmemiff : ∀ t, t ∈ ruleSteps db r ↔ t ∈ db.approval_steps ∧ t.rule_id = r := by
    intro t
    unfold ruleSteps orderBySequence
    rw [List.mem_insertionSort]
    simp [List.mem_filter]
  cases hrs : ruleSteps db r with
  | nil => rw [hrs] at hfirst; cases hfirst
  | cons cur tail =>
    rw [hrs] at hfirst hstrict hlen hids
    simp only [List.head?_cons, Option.some.injEq] at hfirst
    subst hfirst
    have haux := sequential_run_aux r hr expenseId tail cur reqs db e hkeys
      (fun t ht => by
        have h := (hmemiff t).1 (by rw [hrs]; exact ht)
        exact ⟨h.1, h.2, hids t ht⟩)
      (fun t ht htr hlt => by
        have h : t ∈ cur :: tail := by rw [← hrs]; exact (hmemiff t).2 ⟨ht, htr⟩
        rcases List.mem_cons.1 h with h | h
        · rw [h] at hlt; exact absurd hlt (lt_irrefl _)
        · exact h)
      hstrict hfind hrule hstep (by simpa using hlen) hreqs
    have hstat : ∀ sid : Nat, ({ e with status := .Pending, current_step_id := some sid } : Expense)
        = { e with current_step_id := some sid } := by
      intro sid
      cases e
      simp only at hpend
      subst hpend
      rfl
    refine ⟨fun k s hk => ?_, haux.2.1, haux.2.2⟩
    rw [hstat]
    exact haux.1 k s hk

/-- C5: under the fallback policy, let a Pending expense without history belong to a company
with `M ≥ 1` Manager-role users.  In a run of `'Approved'` actions by `k` distinct approvers
every action commits; while `k < M` the expense is unchanged (status Pending, approved_amount
as before); once `k ≥ M` it is `Approved` with approved_amount the amount of the last request
(at `k = M`: the `M`-th), or the expense's amount when that request carries none.  So the
status is `Approved` exactly when `k ≥ M`. -/
theorem quorum_run_resolves_at_manager_count (db : Db) (reqs : List Request) (e : Expense)
    (expenseId M : Nat)
    (hfind : findExpense db expenseId = some e)
    (hq : isSequential e = false)
    (hpend : e.status = .Pending)
    (hM : countManagers db e.company_id = M)
    (hM1 : 1 ≤ M)
    (hnohist : ∀ h ∈ db.approval_history, h.expense_id ≠ expenseId)
    (hreqs : ∀ q ∈ reqs, q.expenseId = expenseId ∧ q.action = .string "Approved")
    (hdistinct : (reqs.map (fun q => q.user.id)).Nodup) :
    (∀ k q, reqs[k]? = some q →
      (actionExpense (runActions db (reqs.take k)) q).response.status = 200) ∧
    (reqs.length < M → findExpense (runActions db reqs) expenseId = some e) ∧
    (∀ q, reqs.getLast? = some q → M ≤ reqs.length →
      findExpense (runActions db reqs) expenseId
        = some { e with status := .Approved, approved_amount := resolvedAmount q e }) ∧
    (∃ e', findExpense (runActions db reqs) expenseId = some e' ∧
      (e'.status = .Approved ↔ M ≤ reqs.length)) := by
  have hzero : countApprovals db expenseId = 0 := by
    simp only [countApprovals, List.length_eq_zero, List.filter_eq_nil_iff, decide_eq_true_eq,
      not_and]
    intro h hh heq
    exact absurd heq (hnohist h hh)
  have hnew : ∀ q ∈ reqs, selectExistingAction db expenseId q.user.id = [] := by
    intro q _
    rw [selectExistingAction_eq_nil_iff]
    intro h hh heq
    exact hnohist h hh heq.1
  obtain ⟨h1, h2, h3⟩ := quorum_run_aux expenseId M reqs db e hfind hq hM hnew hdistinct hreqs
  rw [hzero, Nat.zero_add] at h2 h3
  refine ⟨h1, h2, h3, ?_⟩
  by_cases hlt : reqs.length < M
  · refine ⟨e, h2 hlt, ?_⟩
    rw [hpend]
    constructor
    · intro h; cases h
    · intro h; omega
  · have hle : M ≤ reqs.length := Nat.le_of_not_lt hlt
    cases hl : reqs.getLast? with
    | none =>
      rw [List.getLast?_eq_none_iff] at hl
      rw [hl] at hle
      simp only [List.length_nil] at hle
      omega
    | some q => exact ⟨_, h3 q hl hle, fun _ => hle, fun _ => rfl⟩

/-- C6: the fallback branch resolves an expense although a manager of its company has not
approved it.  Company 1 has the managers 1 and 2; after manager 1 has approved expense 8, an
approval by user 3, a manager of company 2, brings the count of approvals to the count of
managers: the expense becomes `Approved`, and manager 2 has no history entry. -/
theorem quorum_resolves_without_every_manager :
    (actionExpense sampleDb (sampleRequest 8 1 1 "Approved" .undefined)).db
      = sampleDbOneApproval ∧
    findExpense sampleDbOneApproval 8 = some sampleQuorumExpense ∧
    isSequential sampleQuorumExpense = false ∧
    countManagers sampleDbOneApproval 1 = 2 ∧
    (actionExpense sampleDbOneApproval
      (sampleRequest 8 3 2 "Approved" .undefined)).response.status = 200 ∧
    findExpense (actionExpense sampleDbOneApproval
        (sampleRequest 8 3 2 "Approved" .undefined)).db 8
      = some { sampleQuorumExpense with status := .Approved, approved_amount := .number 60 } ∧
    everyManagerApproved (actionExpense sampleDbOneApproval
        (sampleRequest 8 3 2 "Approved" .undefined)).db 1 8 = false := by
  decide

/-- C7: under the fallback policy an `'Approved'` action on an existing expense is answered
with the 409 of the duplicate-action guard if and only if the approver already had a history
entry for that expense; in that case the committed store is the one before the invocation,
and the expenses seen inside the transaction are unchanged too, so status, approved_amount
and current step of the expense stay as they were. -/
theorem duplicate_action_iff_prior_entry (db : Db) (req : Request) (e : Expense)
    (hfind : findExpense db req.expenseId = some e)
    (hact : req.action = .string "Approved")
    (hq : isSequential e = false) :
    ((actionExpense db req).response = duplicateAction ↔
      ∃ h ∈ db.approval_history, h.expense_id = req.expenseId ∧ h.approver_id = req.user.id) ∧
    ((actionExpense db req).response = duplicateAction →
      (actionExpense db req).db = db ∧
      findExpense (actionExpense db req).db req.expenseId = some e ∧
      ∀ work, (actionExpense db req).openTransaction = some work →
        work.expenses = db.expenses) := by
  have hv : validAction req.action = some .Approved := by rw [hact]; exact validAction_approved
  by_cases hold : selectExistingAction db req.expenseId req.user.id = []
  · obtain ⟨hok, _⟩ := actionExpense_quorum db req e hfind hact hq hold
    have hne : (actionExpense db req).response ≠ duplicateAction := by
      intro h
      rw [h] at hok
      exact absurd hok (by decide)
    refine ⟨⟨fun h => absurd h hne, ?_⟩, fun h => absurd h hne⟩
    rintro ⟨h, hh, h1, h2⟩
    exact absurd ⟨h1, h2⟩ ((selectExistingAction_eq_nil_iff db _ _).1 hold h hh)
  · have hout := actionExpense_returned db _ req .Approved duplicateAction hv
      ((tryBlock_allManagers db req e hfind hq).trans
        (allManagersFlow_duplicate db req e.company_id hold))
    rw [hout]
    refine ⟨⟨fun _ => ?_, fun _ => rfl⟩, fun _ => ⟨rfl, hfind, ?_⟩⟩
    · by_contra hno
      apply hold
      rw [selectExistingAction_eq_nil_iff]
      intro h hh heq
      exact hno ⟨h, hh, heq⟩
    · intro work hw
      simp only [Option.some.injEq] at hw
      rw [← hw]
      rfl

/-- C8 fails as stated: manager 1, who has already approved expense 8 under the fallback
policy, sends `'Rejected'`; the request is not refused but commits. -/
theorem repeat_rejection_not_refused :
    ¬ (∀ (db : Db) (req : Request) (e : Expense),
        findExpense db req.expenseId = some e → isSequential e = false →
        (∃ h ∈ db.approval_history,
          h.expense_id = req.expenseId ∧ h.approver_id = req.user.id) →
        (req.action = .string "Approved" ∨ req.action = .string "Rejected") →
        (actionExpense db req).response = duplicateAction) := by
  intro h
  have := h sampleDbOneApproval (sampleRequest 8 1 1 "Rejected" .undefined) sampleQuorumExpense
    (by decide) (by decide)
    ⟨⟨8, 1, .Approved, .null, .null⟩, by decide, by decide, by decide⟩ (Or.inr rfl)
  exact absurd this (by decide)

/-- C8, amended: under the fallback policy, for an approver who already has a history entry
for the expense, a further `'Approved'` action is refused with the 409 of the guard, while a
further `'Rejected'` action is not guarded: it commits and leaves the expense `Rejected` with
approved_amount `0`. -/
theorem repeat_action_under_quorum (db : Db) (req : Request) (e : Expense)
    (hfind : findExpense db req.expenseId = some e)
    (hq : isSequential e = false)
    (hprior : ∃ h ∈ db.approval_history,
      h.expense_id = req.expenseId ∧ h.approver_id = req.user.id) :
    (req.action = .string "Approved" →
      (actionExpense db req).response = duplicateAction ∧
      (actionExpense db req).db = db) ∧
    (req.action = .string "Rejected" →
      (actionExpense db req).response.status = 200 ∧
      findExpense (actionExpense db req).db req.expenseId
        = some { e with status := .Rejected, approved_amount := .number 0 }) := by
  constructor
  · intro hact
    have hold : selectExistingAction db req.expenseId req.user.id ≠ [] := by
      intro hnil
      obtain ⟨h, hh, heq⟩ := hprior
      exact (selectExistingAction_eq_nil_iff db _ _).1 hnil h hh heq
    rw [actionExpense_returned db _ req .Approved duplicateAction
      (by rw [hact]; exact validAction_approved)
      ((tryBlock_allManagers db req e hfind hq).trans
        (allManagersFlow_duplicate db req e.company_id hold))]
    exact ⟨rfl, rfl⟩
  · intro hact
    rw [actionExpense_completed db _ req .Rejected (by rw [hact]; exact validAction_rejected)
      (tryBlock_rejected db req e hfind)]
    refine ⟨rfl, ?_⟩
    show findExpense (updateExpense _ req.expenseId (setRejected .Rejected)) req.expenseId = _
    rw [findExpense_updateExpense _ _ (setRejected .Rejected) (fun _ => rfl),
      findExpense_insertHistory, hfind]
    rfl

/-- C9: the 409 exit does not abort the transaction.  Manager 1 approves expense 8 a second
time: the handler answers 409 after `getConnection`, `beginTransaction` and `release` only,
without `rollback`, and the transaction that holds the inserted history row is left open on
the released connection. -/
theorem duplicate_exit_skips_rollback :
    isSequential sampleQuorumExpense = false ∧
    (actionExpense sampleDbOneApproval
      (sampleRequest 8 1 1 "Approved" .undefined)).response = duplicateAction ∧
    (actionExpense sampleDbOneApproval (sampleRequest 8 1 1 "Approved" .undefined)).trace
      = [.getConnection, .beginTransaction, .release] ∧
    ConnOp.rollback ∉
      (actionExpense sampleDbOneApproval (sampleRequest 8 1 1 "Approved" .undefined)).trace ∧
    (actionExpense sampleDbOneApproval
      (sampleRequest 8 1 1 "Approved" .undefined)).openTransaction
      = some (insertHistory sampleDbOneApproval
          (historyRow (sampleRequest 8 1 1 "Approved" .undefined) .Approved)) := by
  decide

/-- C10: for every action value other than the strings `'Approved'` and `'Rejected'`, an
absent action included, the handler answers 400 whether or not the expense exists, makes no
call on a connection (none is acquired, no transaction is begun) and leaves the store as it
was. -/
theorem invalid_action_rejected (db : Db) (req : Request)
    (h1 : req.action ≠ .string "Approved") (h2 : req.action ≠ .string "Rejected") :
    actionExpense db req = ⟨invalidAction, db, none, []⟩ := by
  simp [actionExpense, validAction_eq_none req.action h1 h2, invalidAction]

/-! ## The history insert and the exits of the transaction -/

theorem sequentialFlow_work_history (work : Db) (req : Request) (action : Action)
    (ruleId stepId : Option Nat) :
    (sequentialFlow work req action ruleId stepId).work.approval_history
      = work.approval_history := by
  unfold sequentialFlow
  cases (selectStep work stepId).head? with
  | none => rfl
  | some cur =>
    simp only
    cases (selectNextStep work ruleId cur.step_sequence).head? with
    | some nxt => rfl
    | none =>
      simp only
      cases finalAmount work req.expenseId req.approved_amount <;> rfl

theorem allManagersFlow_work_history (work : Db) (req : Request) (action : Action)
    (companyId : Nat) :
    (allManagersFlow work req action companyId).work.approval_history
      = work.approval_history := by
  unfold allManagersFlow
  simp only
  by_cases h1 : (selectExistingAction work req.expenseId req.user.id).length > 1
  · rw [if_pos h1]; rfl
  · rw [if_neg h1]
    by_cases h2 : countApprovals work req.expenseId ≥ countManagers work companyId
    · rw [if_pos h2]
      cases finalAmount work req.expenseId req.approved_amount <;> rfl
    · rw [if_neg h2]; rfl

/-- With the expense found, the transaction holds the history of the store followed by the
row of this invocation, however control leaves the `try` block. -/
theorem tryBlock_found_history (db : Db) (req : Request) (action : Action) (e : Expense)
    (hfind : findExpense db req.expenseId = some e) :
    (tryBlock db req action).work.approval_history
      = db.approval_history ++ [historyRow req action] := by
  unfold tryBlock
  simp only [hfind]
  cases action with
  | Rejected => rfl
  | Approved =>
    simp only
    split
    · rw [sequentialFlow_work_history]; rfl
    · rw [allManagersFlow_work_history]; rfl

/-- With no expense found, the `try` block throws before the insert. -/
theorem tryBlock_not_found (db : Db) (req : Request) (action : Action)
    (hnone : findExpense db req.expenseId = none) :
    tryBlock db req action = .threw db := by
  simp [tryBlock, hnone]

/-- The three exits of an invocation with a valid action. -/
theorem actionExpense_exits (db : Db) (req : Request) (action : Action)
    (hv : validAction req.action = some action) :
    (∃ work, tryBlock db req action = .completed work ∧
      actionExpense db req
        = ⟨⟨200, "Expense successfully " ++ action.toLowerCase ++ "."⟩, work, none,
            [.getConnection, .beginTransaction, .commit, .release]⟩) ∨
    (∃ res work, tryBlock db req action = .returned res work ∧
      actionExpense db req
        = ⟨res, db, some work, [.getConnection, .beginTransaction, .release]⟩) ∨
    (∃ work, tryBlock db req action = .threw work ∧
      actionExpense db req
        = ⟨serverError, db, none,
            [.getConnection, .beginTransaction, .rollback, .release]⟩) := by
  cases ht : tryBlock db req action with
  | completed work => exact Or.inl ⟨work, rfl, actionExpense_completed db work req action hv ht⟩
  | returned res work =>
    exact Or.inr (Or.inl ⟨res, work, rfl, actionExpense_returned db work req action res hv ht⟩)
  | threw work =>
    exact Or.inr (Or.inr ⟨work, rfl, actionExpense_threw db work req action hv ht⟩)

theorem historyOf_append_row (db : Db) (req : Request) (action : Action) (hist : List HistoryEntry)
    (h : hist = db.approval_history ++ [historyRow req action]) :
    (hist.filter (fun h => h.expense_id = req.expenseId)).length
      = (historyOf db req.expenseId).length + 1 := by
  subst h
  simp [historyOf, List.filter_append, historyRow]

/-- C11: an unknown expense id is not answered with a result of its own.  On the sample
store, an approval of the unknown expense 99 and an approval of expense 7 whose current step
is missing both end in the same 500 response of the `catch` block, after a rollback. -/
theorem not_found_surfaces_as_server_error :
    findExpense sampleDb 99 = none ∧
    findExpense sampleDbDangling 99 = none ∧
    (actionExpense sampleDb (sampleRequest 99 1 1 "Approved" .undefined)).response
      = serverError ∧
    (actionExpense sampleDb (sampleRequest 99 1 1 "Rejected" .undefined)).response
      = serverError ∧
    (actionExpense sampleDbDangling (sampleRequest 7 1 1 "Approved" .undefined)).response
      = serverError ∧
    (actionExpense sampleDb (sampleRequest 99 1 1 "Approved" .undefined)).response
      = (actionExpense sampleDbDangling (sampleRequest 7 1 1 "Approved" .undefined)).response := by
  decide

/-- C12: under the sequential policy, when the current-step reference of the expense matches
no approval step, an `'Approved'` action is answered with the 500 response; the connection
calls are `getConnection`, `beginTransaction`, `rollback`, `release` (no `commit`), the
committed store is the one before the invocation and no transaction is left open, although
the transaction had inserted the history row. -/
theorem missing_current_step_rolls_back (db : Db) (req : Request) (e : Expense)
    (hfind : findExpense db req.expenseId = some e)
    (hact : req.action = .string "Approved")
    (hseq : isSequential e = true)
    (hmissing : ∀ s ∈ db.approval_steps, some s.id ≠ e.current_step_id) :
    actionExpense db req
      = ⟨serverError, db, none, [.getConnection, .beginTransaction, .rollback, .release]⟩ ∧
    (tryBlock db req .Approved).work.approval_history
      = db.approval_history ++ [historyRow req .Approved] ∧
    (actionExpense db req).db.approval_history = db.approval_history ∧
    findExpense (actionExpense db req).db req.expenseId = some e := by
  have hsel : (selectStep (insertHistory db (historyRow req .Approved))
      e.current_step_id).head? = none := by
    rw [List.head?_eq_none_iff]
    simp only [selectStep, insertHistory, List.filter_eq_nil_iff, decide_eq_true_eq]
    exact hmissing
  have ht : tryBlock db req .Approved
      = .threw (insertHistory db (historyRow req .Approved)) := by
    rw [tryBlock_sequential db req e hfind hseq]
    simp [sequentialFlow, hsel]
  have hout := actionExpense_threw db _ req .Approved
    (by rw [hact]; exact validAction_approved) ht
  refine ⟨hout, tryBlock_found_history db req .Approved e hfind, ?_, ?_⟩
  · rw [hout]
  · rw [hout]; exact hfind

/-- C13 fails as stated: on the sample store an approval of the unknown expense 99 has a
valid action, yet the `try` block throws at the lookup and its transaction holds no new
history row. -/
theorem unknown_expense_inserts_no_history :
    ¬ (∀ (db : Db) (req : Request) (action : Action),
        validAction req.action = some action →
        (tryBlock db req action).work.approval_history.length
          = db.approval_history.length + 1) := by
  intro h
  have := h sampleDb (sampleRequest 99 1 1 "Approved" .undefined) .Approved (by decide)
  exact absurd this (by decide)

/-- C13, amended: an invocation with a valid action on an existing expense inserts exactly
one history row within its transaction, whichever way the `try` block is left; for an
unknown expense id the lookup throws first and nothing is inserted.  The committed history,
and the committed history of the expense, grow by exactly that row when the invocation
commits and are unchanged when it is rolled back. -/
theorem history_insert_and_commit (db : Db) (req : Request) (action : Action)
    (hv : validAction req.action = some action) :
    (∀ e, findExpense db req.expenseId = some e →
      (tryBlock db req action).work.approval_history
        = db.approval_history ++ [historyRow req action]) ∧
    (findExpense db req.expenseId = none →
      (tryBlock db req action).work.approval_history = db.approval_history ∧
      ConnOp.rollback ∈ (actionExpense db req).trace) ∧
    (ConnOp.commit ∈ (actionExpense db req).trace →
      (actionExpense db req).db.approval_history
        = db.approval_history ++ [historyRow req action] ∧
      (historyOf (actionExpense db req).db req.expenseId).length
        = (historyOf db req.expenseId).length + 1) ∧
    (ConnOp.rollback ∈ (actionExpense db req).trace →
      (actionExpense db req).db.approval_history = db.approval_history ∧
      (historyOf (actionExpense db req).db req.expenseId).length
        = (historyOf db req.expenseId).length) := by
  refine ⟨fun e hfind => tryBlock_found_history db req action e hfind, ?_, ?_, ?_⟩
  · intro hnone
    have ht := tryBlock_not_found db req action hnone
    rw [actionExpense_threw db db req action hv ht, ht]
    exact ⟨rfl, by simp⟩
  · intro hc
    rcases actionExpense_exits db req action hv with
      ⟨work, ht, hout⟩ | ⟨res, work, _, hout⟩ | ⟨work, _, hout⟩
    · cases hf : findExpense db req.expenseId with
      | none =>
        rw [tryBlock_not_found db req action hf] at ht
        cases ht
      | some e =>
        have hw := tryBlock_found_history db req action e hf
        rw [ht] at hw
        rw [hout]
        exact ⟨hw, historyOf_append_row db req action _ hw⟩
    · rw [hout] at hc
      simp at hc
    · rw [hout] at hc
      simp at hc
  · intro hr
    rcases actionExpense_exits db req action hv with
      ⟨work, _, hout⟩ | ⟨res, work, _, hout⟩ | ⟨work, _, hout⟩
    · rw [hout] at hr
      simp at hr
    · rw [hout] at hr
      simp at hr
    · rw [hout]
      exact ⟨rfl, rfl⟩

theorem sequentialFlow_completed_status (work w : Db) (req : Request)
    (ruleId stepId : Option Nat) (e : Expense)
    (hfind : findExpense work req.expenseId = some e)
    (h : sequentialFlow work req .Approved ruleId stepId = .completed w) :
    ∃ e', findExpense w req.expenseId = some e' ∧
      (e'.status = .Approved ∨ e'.status = e.status) := by
  unfold sequentialFlow at h
  cases hc : (selectStep work stepId).head? with
  | none => rw [hc] at h; cases h
  | some cur =>
    rw [hc] at h
    simp only at h
    cases hn : (selectNextStep work ruleId cur.step_sequence).head? with
    | some nxt =>
      rw [hn] at h
      simp only [TryResult.completed.injEq] at h
      subst h
      rw [findExpense_updateExpense _ _ (setCurrentStep nxt.id) (fun _ => rfl), hfind]
      exact ⟨_, rfl, Or.inr rfl⟩
    | none =>
      rw [hn] at h
      simp only at h
      cases hf : finalAmount work req.expenseId req.approved_amount with
      | none => rw [hf] at h; cases h
      | some amt =>
        rw [hf] at h
        simp only [TryResult.completed.injEq] at h
        subst h
        rw [findExpense_updateExpense _ _ (setResolvedClearStep .Approved amt) (fun _ => rfl),
          hfind]
        exact ⟨_, rfl, Or.inl rfl⟩

theorem allManagersFlow_completed_status (work w : Db) (req : Request) (companyId : Nat)
    (e : Expense) (hfind : findExpense work req.expenseId = some e)
    (h : allManagersFlow work req .Approved companyId = .completed w) :
    ∃ e', findExpense w req.expenseId = some e' ∧
      (e'.status = .Approved ∨ e'.status = e.status) := by
  unfold allManagersFlow at h
  simp only at h
  by_cases h1 : (selectExistingAction work req.expenseId req.user.id).length > 1
  · rw [if_pos h1] at h; cases h
  · rw [if_neg h1] at h
    by_cases h2 : countApprovals work req.expenseId ≥ countManagers work companyId
    · rw [if_pos h2] at h
      cases hf : finalAmount work req.expenseId req.approved_amount with
      | none => rw [hf] at h; cases h
      | some amt =>
        rw [hf] at h
        simp only [TryResult.completed.injEq] at h
        subst h
        rw [findExpense_updateExpense _ _ (setResolved .Approved amt) (fun _ => rfl), hfind]
        exact ⟨_, rfl, Or.inl rfl⟩
    · rw [if_neg h2] at h
      simp only [TryResult.completed.injEq] at h
      subst h
      exact ⟨e, hfind, Or.inr rfl⟩

/-- After a completed `try` block the expense carries the status of the action, or, for an
approval that does not resolve it, the status it had. -/
theorem tryBlock_completed_status (db w : Db) (req : Request) (action : Action) (e : Expense)
    (hfind : findExpense db req.expenseId = some e)
    (h : tryBlock db req action = .completed w) :
    ∃ e', findExpense w req.expenseId = some e' ∧
      (e'.status = action.toStatus ∨ (action = .Approved ∧ e'.status = e.status)) := by
  cases action with
  | Rejected =>
    rw [tryBlock_rejected db req e hfind] at h
    simp only [TryResult.completed.injEq] at h
    subst h
    rw [findExpense_updateExpense _ _ (setRejected .Rejected) (fun _ => rfl),
      findExpense_insertHistory, hfind]
    exact ⟨_, rfl, Or.inl rfl⟩
  | Approved =>
    have hfind' : findExpense (insertHistory db (historyRow req .Approved)) req.expenseId
        = some e := hfind
    cases hs : isSequential e with
    | true =>
      rw [tryBlock_sequential db req e hfind hs] at h
      obtain ⟨e', he', hst⟩ := sequentialFlow_completed_status _ w req _ _ e hfind' h
      exact ⟨e', he', hst.elim Or.inl (fun hh => Or.inr ⟨rfl, hh⟩)⟩
    | false =>
      rw [tryBlock_allManagers db req e hfind hs] at h
      obtain ⟨e', he', hst⟩ := allManagersFlow_completed_status _ w req _ e hfind' h
      exact ⟨e', he', hst.elim Or.inl (fun hh => Or.inr ⟨rfl, hh⟩)⟩

theorem sequentialFlow_not_returned (work w : Db) (req : Request) (action : Action)
    (ruleId stepId : Option Nat) (res : Response) :
    sequentialFlow work req action ruleId stepId ≠ .returned res w := by
  unfold sequentialFlow
  cases (selectStep work stepId).head? with
  | none => intro h; cases h
  | some cur =>
    simp only
    cases (selectNextStep work ruleId cur.step_sequence).head? with
    | some nxt => intro h; cases h
    | none =>
      simp only
      cases finalAmount work req.expenseId req.approved_amount <;> (intro h; cases h)

theorem allManagersFlow_returned (work w : Db) (req : Request) (action : Action)
    (companyId : Nat) (res : Response)
    (h : allManagersFlow work req action companyId = .returned res w) :
    res = duplicateAction := by
  unfold allManagersFlow at h
  simp only at h
  by_cases h1 : (selectExistingAction work req.expenseId req.user.id).length > 1
  · rw [if_pos h1] at h
    simp only [TryResult.returned.injEq] at h
    exact h.1.symm
  · rw [if_neg h1] at h
    by_cases h2 : countApprovals work req.expenseId ≥ countManagers work companyId
    · rw [if_pos h2] at h
      cases hf : finalAmount work req.expenseId req.approved_amount with
      | none => rw [hf] at h; cases h
      | some amt => rw [hf] at h; cases h
    · rw [if_neg h2] at h; cases h

/-- The only response returned from inside the `try` block is the 409 of the guard. -/
theorem tryBlock_returned (db w : Db) (req : Request) (action : Action) (res : Response)
    (h : tryBlock db req action = .returned res w) : res = duplicateAction := by
  unfold tryBlock at h
  cases hf : findExpense db req.expenseId with
  | none => rw [hf] at h; cases h
  | some e =>
    rw [hf] at h
    simp only at h
    cases action with
    | Rejected => cases h
    | Approved =>
      simp only at h
      by_cases hs : isSequential e = true
      · rw [if_pos hs] at h
        exact absurd h (sequentialFlow_not_returned _ w req _ _ _ res)
      · rw [if_neg hs] at h
        exact allManagersFlow_returned _ w req _ _ res h

/-- C14: a rejection leaves the current step in place.  On the sample store the Pending
expense 7 stands at step 11; one committed `'Rejected'` action leaves it with status
`Rejected` and current step 11, whereas the approval at the last step clears the step. -/
theorem rejected_keeps_current_step :
    findExpense sampleDb 7 = some sampleSeqExpense ∧
    sampleSeqExpense.status = .Pending ∧
    (actionExpense sampleDb (sampleRequest 7 1 1 "Rejected" .undefined)).response.status
      = 200 ∧
    (findExpense (actionExpense sampleDb
      (sampleRequest 7 1 1 "Rejected" .undefined)).db 7).map (fun e => e.status)
      = some .Rejected ∧
    (findExpense (actionExpense sampleDb
      (sampleRequest 7 1 1 "Rejected" .undefined)).db 7).map (fun e => e.current_step_id)
      = some (some 11) ∧
    (findExpense (actionExpense sampleDbLastStep
      (sampleRequest 7 1 1 "Approved" .undefined)).db 7).map (fun e => e.current_step_id)
      = some none := by
  decide

/-- C15 fails as stated: on the sample store the first approval of expense 7 succeeds and
leaves the expense Pending, while the response reads "Expense successfully approved.". -/
theorem success_response_not_resulting_status :
    ¬ (∀ (db : Db) (req : Request) (e' : Expense),
        (actionExpense db req).response.status = 200 →
        findExpense (actionExpense db req).db req.expenseId = some e' →
        (actionExpense db req).response.message = successMessage e'.status) := by
  intro h
  have := h sampleDb (sampleRequest 7 1 1 "Approved" .undefined)
    { sampleSeqExpense with current_step_id := some 12 } (by decide) (by decide)
  exact absurd this (by decide)

theorem validAction_some_approved (v : JsValue) (h : validAction v = some .Approved) :
    v = .string "Approved" := by
  cases v with
  | string s =>
    by_cases h1 : s = "Approved"
    · rw [h1]
    · by_cases h2 : s = "Rejected"
      · rw [h2] at h
        exact absurd h (by decide)
      · simp [validAction, h1, h2] at h
  | undefined => cases h
  | null => cases h
  | bool b => cases h
  | number q => cases h

/-- A successful approval under the fallback dispatch comes from an approver without an
earlier entry: with one, the handler answers the 409. -/
theorem quorum_success_fresh (db : Db) (req : Request) (e : Expense)
    (hfind : findExpense db req.expenseId = some e)
    (hact : req.action = .string "Approved")
    (hq : isSequential e = false)
    (hok : (actionExpense db req).response.status = 200) :
    selectExistingAction db req.expenseId req.user.id = [] := by
  by_contra hold
  rw [actionExpense_returned db _ req .Approved duplicateAction
    (by rw [hact]; exact validAction_approved)
    ((tryBlock_allManagers db req e hfind hq).trans
      (allManagersFlow_duplicate db req e.company_id hold))] at hok
  simp [duplicateAction] at hok

/-- C15, amended: the success response names the action of the request, not the resulting
status of the expense.  After a successful invocation the message is the success message
with the action's word.  The persisted status is `Rejected` after a rejection; after an
approval under the sequential policy it is the status the expense had when a later step of
the rule exists, and `Approved` at the last step; after an approval under the fallback
policy it is the status the expense had while the approvals stay below the count of
managers, and `Approved` once they reach it. -/
theorem success_response_names_action (db : Db) (req : Request) (action : Action)
    (e : Expense)
    (hv : validAction req.action = some action)
    (hfind : findExpense db req.expenseId = some e)
    (hok : (actionExpense db req).response.status = 200) :
    (actionExpense db req).response.message = successMessage action.toStatus ∧
    ∃ e', findExpense (actionExpense db req).db req.expenseId = some e' ∧
      (e'.status = action.toStatus ∨ (action = .Approved ∧ e'.status = e.status)) ∧
      (action = .Rejected → e'.status = .Rejected) ∧
      (action = .Approved → isSequential e = true →
        ∃ cur, (selectStep db e.current_step_id).head? = some cur ∧
          ((∃ t ∈ db.approval_steps,
              some t.rule_id = e.rule_id ∧ cur.step_sequence < t.step_sequence) →
            e'.status = e.status) ∧
          ((∀ t ∈ db.approval_steps, some t.rule_id = e.rule_id →
              ¬ cur.step_sequence < t.step_sequence) →
            e'.status = .Approved)) ∧
      (action = .Approved → isSequential e = false →
        (countApprovals db req.expenseId + 1 < countManagers db e.company_id →
          e'.status = e.status) ∧
        (countManagers db e.company_id ≤ countApprovals db req.expenseId + 1 →
          e'.status = .Approved)) := by
  have hbase : (actionExpense db req).response.message = successMessage action.toStatus ∧
      ∃ e', findExpense (actionExpense db req).db req.expenseId = some e' ∧
        (e'.status = action.toStatus ∨ (action = .Approved ∧ e'.status = e.status)) := by
    rcases actionExpense_exits db req action hv with
      ⟨work, ht, hout⟩ | ⟨res, work, ht, hout⟩ | ⟨work, _, hout⟩
    · rw [hout]
      refine ⟨?_, tryBlock_completed_status db work req action e hfind ht⟩
      cases action <;> rfl
    · rw [hout, tryBlock_returned db work req action res ht] at hok
      simp [duplicateAction] at hok
    · rw [hout] at hok
      simp [serverError] at hok
  obtain ⟨hmsg, e', he', hdisj⟩ := hbase
  refine ⟨hmsg, e', he', hdisj, ?_, ?_, ?_⟩
  · intro ha
    subst ha
    rcases hdisj with h | ⟨h, _⟩
    · exact h
    · cases h
  · intro ha hseq
    subst ha
    have hact := validAction_some_approved req.action hv
    obtain ⟨cur, hcur⟩ : ∃ cur, (selectStep db e.current_step_id).head? = some cur := by
      cases hsel : (selectStep db e.current_step_id).head? with
      | some cur => exact ⟨cur, rfl⟩
      | none =>
        have hsel' : (selectStep (insertHistory db (historyRow req .Approved))
            e.current_step_id).head? = none := hsel
        have ht : tryBlock db req .Approved
            = .threw (insertHistory db (historyRow req .Approved)) := by
          rw [tryBlock_sequential db req e hfind hseq]
          simp [sequentialFlow, hsel']
        rw [actionExpense_threw db _ req .Approved hv ht] at hok
        simp at hok
    refine ⟨cur, hcur, ?_, ?_⟩
    · intro hlater
      obtain ⟨nxt, hnxt⟩ := selectNextStep_isSome db e.rule_id cur.step_sequence hlater
      obtain ⟨_, _, hres⟩ := actionExpense_advance db req e cur nxt hfind hact hseq hcur hnxt
      rw [hres] at he'
      simp only [Option.some.injEq] at he'
      rw [← he']
    · intro hlast
      have hnone : (selectNextStep db e.rule_id cur.step_sequence).head? = none := by
        cases hn : (selectNextStep db e.rule_id cur.step_sequence).head? with
        | none => rfl
        | some nxt =>
          obtain ⟨hmem, hrule, hlt, _⟩ :=
            selectNextStep_some db e.rule_id cur.step_sequence nxt hn
          exact absurd hlt (hlast nxt hmem hrule)
      obtain ⟨_, hres⟩ := actionExpense_final db req e cur hfind hact hseq hcur hnone
      rw [hres] at he'
      simp only [Option.some.injEq] at he'
      rw [← he']
  · intro ha hq
    subst ha
    have hact := validAction_some_approved req.action hv
    have hnew := quorum_success_fresh db req e hfind hact hq hok
    obtain ⟨_, _, _, hres⟩ := actionExpense_quorum db req e hfind hact hq hnew
    constructor
    · intro hlt
      rw [if_neg (by omega)] at hres
      rw [hres] at he'
      simp only [Option.some.injEq] at he'
      rw [← he']
    · intro hle
      rw [if_pos hle] at hres
      rw [hres] at he'
      simp only [Option.some.injEq] at he'
      rw [← he']

/-- C19: for a valid action on an existing expense the transaction holds, after the history
of the store, one new row.  It carries the expense id, the approver id and the action of the
request; its step_approved_amount is the approved_amount of the request for `'Approved'`
(`NULL` when the request has none) and `NULL` for `'Rejected'` whatever the request supplies;
its comments are the comments of the request, and `NULL` when they are absent, `null` or the
empty string. -/
theorem history_row_fields (db : Db) (req : Request) (action : Action) (e : Expense)
    (hv : validAction req.action = some action)
    (hfind : findExpense db req.expenseId = some e) :
    ∃ row, (tryBlock db req action).work.approval_history = db.approval_history ++ [row] ∧
      row.expense_id = req.expenseId ∧ row.approver_id = req.user.id ∧
      validAction req.action = some row.action ∧ row.action = action ∧
      (action = .Approved → req.approved_amount ≠ .undefined →
        row.step_approved_amount = req.approved_amount) ∧
      (action = .Approved → req.approved_amount = .undefined →
        row.step_approved_amount = .null) ∧
      (action = .Rejected → row.step_approved_amount = .null) ∧
      (∀ s, req.comments = .string s → s ≠ "" → row.comments = .string s) ∧
      (req.comments = .undefined ∨ req.comments = .null ∨ req.comments = .string "" →
        row.comments = .null) := by
  refine ⟨historyRow req action, tryBlock_found_history db req action e hfind, rfl, rfl, hv,
    rfl, ?_, ?_, ?_, ?_, ?_⟩
  · intro ha hne
    subst ha
    simp only [historyRow, if_true]
    cases hq : req.approved_amount <;> first | rfl | exact absurd hq hne
  · intro ha hu
    subst ha
    simp only [historyRow, if_true, hu]
    rfl
  · intro ha
    subst ha
    rfl
  · intro s hs hne
    simp [historyRow, JsValue.orNull, JsValue.truthy, hs, hne]
  · rintro (h | h | h) <;> simp [historyRow, JsValue.orNull, JsValue.truthy, h]

/-- C20: under the handler the approval history only grows at its end: for every
invocation, whatever its input and its exit, the history of the store before is a prefix of
the committed history after, and of the history inside a transaction left open. -/
theorem history_append_only (db : Db) (req : Request) :
    db.approval_history <+: (actionExpense db req).db.approval_history ∧
    ∀ work, (actionExpense db req).openTransaction = some work →
      db.approval_history <+: work.approval_history := by
  cases hv : validAction req.action with
  | none =>
    have hout : actionExpense db req = ⟨invalidAction, db, none, []⟩ := by
      simp [actionExpense, hv]
    rw [hout]
    exact ⟨List.prefix_refl _, fun work h => by cases h⟩
  | some action =>
    have hwork : db.approval_history <+: (tryBlock db req action).work.approval_history := by
      cases hf : findExpense db req.expenseId with
      | none => rw [tryBlock_not_found db req action hf]; exact List.prefix_refl _
      | some e =>
        rw [tryBlock_found_history db req action e hf]
        exact List.prefix_append _ _
    rcases actionExpense_exits db req action hv with
      ⟨work, ht, hout⟩ | ⟨res, work, ht, hout⟩ | ⟨work, _, hout⟩
    · rw [hout]
      rw [ht] at hwork
      exact ⟨hwork, fun w h => by cases h⟩
    · rw [hout]
      rw [ht] at hwork
      refine ⟨List.prefix_refl _, fun w h => ?_⟩
      simp only [Option.some.injEq] at h
      rw [← h]
      exact hwork
    · rw [hout]
      exact ⟨List.prefix_refl _, fun w h => by cases h⟩

/-! ## The dashboard's approval and the submission of an expense -/

/-- C17 fails as stated: expense 9 is shown with the converted amount "92.50"; starting and
confirming the approval without touching the amount field sends that converted amount as
approved_amount, and the resolving approval stores it instead of the expense's amount 100. -/
theorem unchanged_approval_sends_converted_amount :
    (handleStartEdit samplePending).amount = samplePending.converted_amount ∧
    (approveUnchanged ⟨3, "Manager", 2⟩ samplePending).approved_amount = .string "92.50" ∧
    findExpense sampleDbForeign 9 = some sampleForeignExpense ∧
    (actionExpense sampleDbForeign
      (approveUnchanged ⟨3, "Manager", 2⟩ samplePending)).response.status = 200 ∧
    findExpense (actionExpense sampleDbForeign
        (approveUnchanged ⟨3, "Manager", 2⟩ samplePending)).db 9
      = some { sampleForeignExpense with
          status := .Approved, approved_amount := .string "92.50" } ∧
    (findExpense (actionExpense sampleDbForeign
        (approveUnchanged ⟨3, "Manager", 2⟩ samplePending)).db 9).map
        (fun e => e.approved_amount)
      ≠ some (.number sampleForeignExpense.amount) := by
  decide

/-- C17, amended: when a manager starts and confirms an approval without changing the
amount field, the request is an `'Approved'` action on that expense whose approved_amount is
the expense's converted_amount when the list attached one (a truthy value), and the
expense's amount otherwise.  On a resolving approval, at the last step of the sequential
flow or when the fallback count is reached by an approver without an earlier entry, the
handler commits and stores that value: an attached converted amount becomes the
approved_amount of the expense. -/
theorem unchanged_approval_sends_prefill (user : ReqUser) (exp : PendingExpense) :
    (approveUnchanged user exp).expenseId = exp.id ∧
    (approveUnchanged user exp).action = .string "Approved" ∧
    (exp.converted_amount.truthy = true →
      (approveUnchanged user exp).approved_amount = exp.converted_amount) ∧
    (exp.converted_amount.truthy = false →
      (approveUnchanged user exp).approved_amount = exp.amount) ∧
    ∀ (db : Db) (e : Expense), findExpense db exp.id = some e →
      ((isSequential e = true ∧
          ∃ cur, (selectStep db e.current_step_id).head? = some cur ∧
            ∀ t ∈ db.approval_steps, some t.rule_id = e.rule_id →
              ¬ cur.step_sequence < t.step_sequence) ∨
        (isSequential e = false ∧
          selectExistingAction db exp.id user.id = [] ∧
          countManagers db e.company_id ≤ countApprovals db exp.id + 1)) →
      (actionExpense db (approveUnchanged user exp)).response.status = 200 ∧
      ∃ e', findExpense (actionExpense db (approveUnchanged user exp)).db exp.id = some e' ∧
        e'.status = .Approved ∧
        (exp.converted_amount.truthy = true →
          e'.approved_amount = exp.converted_amount) ∧
        (exp.converted_amount.truthy = false → exp.amount ≠ .undefined →
          e'.approved_amount = exp.amount) := by
  have hsent1 : exp.converted_amount.truthy = true →
      (approveUnchanged user exp).approved_amount = exp.converted_amount := by
    intro ht
    simp [approveUnchanged, dashboardRequest, handleActionBody, handleStartEdit, ht]
  have hsent2 : exp.converted_amount.truthy = false →
      (approveUnchanged user exp).approved_amount = exp.amount := by
    intro hf
    simp [approveUnchanged, dashboardRequest, handleActionBody, handleStartEdit, hf]
  refine ⟨rfl, rfl, hsent1, hsent2, ?_⟩
  intro db e hfind hres
  have hamt : (exp.converted_amount.truthy = true →
        resolvedAmount (approveUnchanged user exp) e = exp.converted_amount) ∧
      (exp.converted_amount.truthy = false → exp.amount ≠ .undefined →
        resolvedAmount (approveUnchanged user exp) e = exp.amount) := by
    constructor
    · intro ht
      have hne : exp.converted_amount ≠ .undefined := by
        intro hu
        rw [hu] at ht
        exact absurd ht (by decide)
      simp [resolvedAmount, hsent1 ht, hne]
    · intro hf hne
      simp [resolvedAmount, hsent2 hf, hne]
  rcases hres with ⟨hseq, cur, hcur, hlast⟩ | ⟨hq, hnew, hcount⟩
  · have hnone : (selectNextStep db e.rule_id cur.step_sequence).head? = none := by
      cases hn : (selectNextStep db e.rule_id cur.step_sequence).head? with
      | none => rfl
      | some nxt =>
        obtain ⟨hmem, hrule, hlt, _⟩ :=
          selectNextStep_some db e.rule_id cur.step_sequence nxt hn
        exact absurd hlt (hlast nxt hmem hrule)
    obtain ⟨hok, hfinal⟩ :=
      actionExpense_final db (approveUnchanged user exp) e cur hfind rfl hseq hcur hnone
    exact ⟨hok, _, hfinal, rfl, hamt⟩
  · obtain ⟨hok, _, _, hfinal⟩ :=
      actionExpense_quorum db (approveUnchanged user exp) e hfind rfl hq hnew
    have hcount' : countManagers db e.company_id
        ≤ countApprovals db (approveUnchanged user exp).expenseId + 1 := hcount
    rw [if_pos hcount'] at hfinal
    exact ⟨hok, _, hfinal, rfl, hamt⟩

theorem head?_take_one {α : Type} (l : List α) : (l.take 1).head? = l.head? := by
  cases l <;> rfl

theorem selectFirstStep_head? (db : Db) (r : Nat) :
    (selectFirstStep db (some r)).head? = (ruleSteps db r).head? := by
  unfold selectFirstStep ruleSteps
  rw [head?_take_one]
  have hfun : (fun s : ApprovalStep => decide (some s.rule_id = some r))
      = (fun s : ApprovalStep => decide (s.rule_id = r)) := by
    funext s
    simp
  rw [hfun]

theorem mem_ruleSteps (db : Db) (r : Nat) (t : ApprovalStep) :
    t ∈ ruleSteps db r ↔ t ∈ db.approval_steps ∧ t.rule_id = r := by
  unfold ruleSteps orderBySequence
  rw [List.mem_insertionSort]
  simp [List.mem_filter]

/-- C18: the row a submission appends to `expenses`.  If the query for a SEQUENTIAL rule of
the caller's company finds `rule` (with a non-zero key), the row carries that rule's id and,
as current step, the id of a step of the rule with the smallest step_sequence, or `NULL`
when the rule has no step, in which case the policy dispatch takes the fallback flow.  If
the company has no SEQUENTIAL rule, both references are `NULL`. -/
theorem submitted_expense_rule_and_step (db : Db) (req : SubmitRequest) (insertId : Nat) :
    ∃ row, (submitExpense db req insertId).2.expenses = db.expenses ++ [row] ∧
      (∀ rule, (db.approval_rules.filter (fun r =>
            r.company_id = req.user.company_id ∧ r.rule_type = "SEQUENTIAL")).head? = some rule →
          rule.id ≠ 0 →
        row.rule_id = some rule.id ∧
        (ruleSteps db rule.id = [] →
          row.current_step_id = none ∧ isSequential row = false) ∧
        (∀ first, (ruleSteps db rule.id).head? = some first →
          row.current_step_id = some first.id ∧
          first ∈ db.approval_steps ∧ first.rule_id = rule.id ∧
          ∀ t ∈ db.approval_steps, t.rule_id = rule.id →
            first.step_sequence ≤ t.step_sequence)) ∧
      ((∀ r ∈ db.approval_rules,
          ¬ (r.company_id = req.user.company_id ∧ r.rule_type = "SEQUENTIAL")) →
        row.rule_id = none ∧ row.current_step_id = none) := by
  refine ⟨_, rfl, ?_, ?_⟩
  · intro rule hrule hne
    have hid : submitRuleId db req.user.company_id = some rule.id := by
      simp only [submitRuleId, selectSequentialRule, head?_take_one, hrule]
    have htruthy : idTruthy (some rule.id) = true := by simp [idTruthy, hne]
    refine ⟨hid, ?_, ?_⟩
    · intro hnil
      have hstep : submitFirstStepId db (some rule.id) = none := by
        simp only [submitFirstStepId, htruthy, if_true, selectFirstStep_head?, hnil,
          List.head?_nil]
      rw [hid, hstep]
      exact ⟨rfl, by simp [isSequential, insertedExpense, idTruthy]⟩
    · intro first hfirst
      have hstep : submitFirstStepId db (some rule.id) = some first.id := by
        simp only [submitFirstStepId, htruthy, if_true, selectFirstStep_head?, hfirst]
      obtain ⟨hmem, hmin⟩ := orderBySequence_head_min _ first hfirst
      have hmem' := (mem_ruleSteps db rule.id first).1
        (by unfold ruleSteps orderBySequence; rw [List.mem_insertionSort]; exact hmem)
      refine ⟨?_, hmem'.1, hmem'.2, fun t ht htr => hmin t ?_⟩
      · rw [hid, hstep]
        rfl
      · simp only [List.mem_filter, decide_eq_true_eq]
        exact ⟨ht, htr⟩
  · intro hno
    have hnil : db.approval_rules.filter (fun r =>
        r.company_id = req.user.company_id ∧ r.rule_type = "SEQUENTIAL") = [] := by
      simp only [List.filter_eq_nil_iff, decide_eq_true_eq]
      exact hno
    have hid : submitRuleId db req.user.company_id = none := by
      simp only [submitRuleId, selectSequentialRule, hnil, List.take_nil, List.head?_nil]
    rw [hid]
    exact ⟨rfl, rfl⟩

/-! ## Frame, connection handling and independence of the caller's company -/

theorem frameRow_refl (expenseId : Nat) (e : Expense) : frameRow expenseId e e :=
  ⟨rfl, rfl, rfl, rfl, rfl, rfl, rfl, rfl, rfl, fun _ => rfl⟩

theorem frameDb_refl (expenseId : Nat) (db : Db) : frameDb expenseId db db :=
  ⟨rfl, rfl, rfl, rfl, List.forall₂_same.2 (fun e _ => frameRow_refl expenseId e)⟩

/-- An `UPDATE expenses ... WHERE id = ?` whose assignment keeps the other columns stays
within the frame. -/
theorem frameDb_updateExpense (db : Db) (expenseId : Nat) (f : Expense → Expense)
    (hf : ∀ e, (f e).id = e.id ∧ (f e).employee_id = e.employee_id ∧
      (f e).company_id = e.company_id ∧ (f e).category = e.category ∧
      (f e).description = e.description ∧ (f e).amount = e.amount ∧
      (f e).currency = e.currency ∧ (f e).expense_date = e.expense_date ∧
      (f e).rule_id = e.rule_id) :
    frameDb expenseId db (updateExpense db expenseId f) := by
  refine ⟨rfl, rfl, rfl, rfl, ?_⟩
  show List.Forall₂ (frameRow expenseId) db.expenses
    (db.expenses.map (fun e => if e.id = expenseId then f e else e))
  rw [List.forall₂_map_right_iff, List.forall₂_same]
  intro e _
  by_cases h : e.id = expenseId
  · rw [if_pos h]
    obtain ⟨h1, h2, h3, h4, h5, h6, h7, h8, h9⟩ := hf e
    exact ⟨h1, h2, h3, h4, h5, h6, h7, h8, h9, fun hne => absurd h hne⟩
  · rw [if_neg h]
    exact frameRow_refl expenseId e

theorem sequentialFlow_work_frame (work : Db) (req : Request) (action : Action)
    (ruleId stepId : Option Nat) :
    frameDb req.expenseId work (sequentialFlow work req action ruleId stepId).work := by
  unfold sequentialFlow
  cases (selectStep work stepId).head? with
  | none => exact frameDb_refl _ _
  | some cur =>
    simp only
    cases (selectNextStep work ruleId cur.step_sequence).head? with
    | some nxt =>
      exact frameDb_updateExpense work req.expenseId (setCurrentStep nxt.id)
        (fun _ => ⟨rfl, rfl, rfl, rfl, rfl, rfl, rfl, rfl, rfl⟩)
    | none =>
      simp only
      cases finalAmount work req.expenseId req.approved_amount with
      | none => exact frameDb_refl _ _
      | some amt =>
        exact frameDb_updateExpense work req.expenseId (setResolvedClearStep action amt)
          (fun _ => ⟨rfl, rfl, rfl, rfl, rfl, rfl, rfl, rfl, rfl⟩)

theorem allManagersFlow_work_frame (work : Db) (req : Request) (action : Action)
    (companyId : Nat) :
    frameDb req.expenseId work (allManagersFlow work req action companyId).work := by
  unfold allManagersFlow
  simp only
  by_cases h1 : (selectExistingAction work req.expenseId req.user.id).length > 1
  · rw [if_pos h1]; exact frameDb_refl _ _
  · rw [if_neg h1]
    by_cases h2 : countApprovals work req.expenseId ≥ countManagers work companyId
    · rw [if_pos h2]
      cases finalAmount work req.expenseId req.approved_amount with
      | none => exact frameDb_refl _ _
      | some amt =>
        exact frameDb_updateExpense work req.expenseId (setResolved action amt)
          (fun _ => ⟨rfl, rfl, rfl, rfl, rfl, rfl, rfl, rfl, rfl⟩)
    · rw [if_neg h2]; exact frameDb_refl _ _

/-- The state inside the transaction stays within the frame of the store the invocation
started from, however control leaves the `try` block. -/
theorem tryBlock_work_frame (db : Db) (req : Request) (action : Action) :
    frameDb req.expenseId db (tryBlock db req action).work := by
  unfold tryBlock
  cases findExpense db req.expenseId with
  | none => exact frameDb_refl _ _
  | some e =>
    simp only
    cases action with
    | Rejected =>
      exact frameDb_updateExpense (insertHistory db (historyRow req .Rejected)) req.expenseId
        (setRejected .Rejected) (fun _ => ⟨rfl, rfl, rfl, rfl, rfl, rfl, rfl, rfl, rfl⟩)
    | Approved =>
      simp only
      by_cases hs : isSequential e = true
      · rw [if_pos hs]
        exact sequentialFlow_work_frame (insertHistory db (historyRow req .Approved)) req
          .Approved e.rule_id e.current_step_id
      · rw [if_neg hs]
        exact allManagersFlow_work_frame (insertHistory db (historyRow req .Approved)) req
          .Approved e.company_id

/-- C21: an invocation of the handler, committed or not, leaves the companies, users,
approval rules and approval steps as they were, and changes the table of expenses at most
row by row in the status, approved_amount and current_step_id of the rows whose id is the
expense id of the request: id, owner, company, category, description, amount, currency,
date and rule reference of every row are kept, and every other row is unchanged. -/
theorem action_changes_only_workflow_columns (db : Db) (req : Request) :
    (actionExpense db req).db.companies = db.companies ∧
    (actionExpense db req).db.users = db.users ∧
    (actionExpense db req).db.approval_rules = db.approval_rules ∧
    (actionExpense db req).db.approval_steps = db.approval_steps ∧
    List.Forall₂
      (fun e e' =>
        e'.id = e.id ∧ e'.employee_id = e.employee_id ∧ e'.company_id = e.company_id ∧
        e'.category = e.category ∧ e'.description = e.description ∧
        e'.amount = e.amount ∧ e'.currency = e.currency ∧
        e'.expense_date = e.expense_date ∧ e'.rule_id = e.rule_id ∧
        (e.id ≠ req.expenseId → e' = e))
      db.expenses (actionExpense db req).db.expenses := by
  have key : frameDb req.expenseId db (actionExpense db req).db := by
    cases hv : validAction req.action with
    | none =>
      have hout : actionExpense db req = ⟨invalidAction, db, none, []⟩ := by
        simp [actionExpense, hv]
      rw [hout]
      exact frameDb_refl _ _
    | some action =>
      have hw := tryBlock_work_frame db req action
      rcases actionExpense_exits db req action hv with
        ⟨work, ht, hout⟩ | ⟨res, work, _, hout⟩ | ⟨work, _, hout⟩
      · rw [hout]
        rw [ht] at hw
        exact hw
      · rw [hout]; exact frameDb_refl _ _
      · rw [hout]; exact frameDb_refl _ _
  exact key

/-- C22: an invocation with an invalid action makes no call on a connection; every other
invocation acquires the connection first and once, and on each of its exits (commit, the
409 return, rollback after a throw) releases it exactly once, as its last call. -/
theorem connection_released_exactly_once (db : Db) (req : Request) :
    (validAction req.action = none → (actionExpense db req).trace = []) ∧
    (ConnOp.getConnection ∈ (actionExpense db req).trace →
      (actionExpense db req).trace.head? = some .getConnection ∧
      (actionExpense db req).trace.count .getConnection = 1 ∧
      (actionExpense db req).trace.count .release = 1 ∧
      (actionExpense db req).trace.getLast? = some .release ∧
      ((actionExpense db req).trace = [.getConnection, .beginTransaction, .commit, .release] ∨
        (actionExpense db req).trace = [.getConnection, .beginTransaction, .release] ∨
        (actionExpense db req).trace
          = [.getConnection, .beginTransaction, .rollback, .release])) := by
  cases hv : validAction req.action with
  | none =>
    have hout : actionExpense db req = ⟨invalidAction, db, none, []⟩ := by
      simp [actionExpense, hv]
    rw [hout]
    exact ⟨fun _ => rfl, fun h => by simp at h⟩
  | some action =>
    refine ⟨fun h => (by cases h), fun _ => ?_⟩
    rcases actionExpense_exits db req action hv with
      ⟨work, _, hout⟩ | ⟨res, work, _, hout⟩ | ⟨work, _, hout⟩
    · rw [hout]
      exact ⟨rfl, rfl, rfl, rfl, Or.inl rfl⟩
    · rw [hout]
      exact ⟨rfl, rfl, rfl, rfl, Or.inr (Or.inl rfl)⟩
    · rw [hout]
      exact ⟨rfl, rfl, rfl, rfl, Or.inr (Or.inr rfl)⟩

/-- C26: the handler reads nothing of the caller but the id.  Two requests that differ only
in the caller's company_id have one and the same outcome (response, store, transaction and
connection calls), through the handler and through the route with its role check; so
manager 3 of company 2 rejects expense 8 of company 1, and approves expense 7 of company
1, with success. -/
theorem outcome_independent_of_caller_company (db : Db) (req : Request) (companyId : Nat) :
    actionExpense db { req with user := { req.user with company_id := companyId } }
      = actionExpense db req ∧
    actionExpenseRoute db { req with user := { req.user with company_id := companyId } }
      = actionExpenseRoute db req ∧
    (actionExpenseRoute sampleDb (sampleRequest 8 3 2 "Rejected" .undefined)).response.status
      = 200 ∧
    (findExpense (actionExpenseRoute sampleDb
      (sampleRequest 8 3 2 "Rejected" .undefined)).db 8).map (fun e => e.status)
      = some .Rejected ∧
    (actionExpenseRoute sampleDb (sampleRequest 7 3 2 "Approved" .undefined)).response.status
      = 200 ∧
    (findExpense (actionExpenseRoute sampleDb
      (sampleRequest 7 3 2 "Approved" .undefined)).db 7).map (fun e => e.current_step_id)
      = some (some 12) :=
  ⟨rfl, rfl, by decide, by decide, by decide, by decide⟩

/-! ## States reached after a resolution -/

/-- C24: `Rejected` is not final.  From the sample store, where expenses 7 and 8 are Pending,
a committed rejection leaves expense 7 `Rejected` at its step, and three further committed
approvals leave it `Approved` with approved_amount 80; likewise expense 8, vetoed under the
fallback policy, is `Approved` with approved_amount 60 after two further approvals. -/
theorem rejected_expense_becomes_approved :
    findExpense sampleDb 7 = some sampleSeqExpense ∧
    runStatuses sampleDb sampleRejectThenApprove = [200, 200, 200, 200] ∧
    findExpense (runActions sampleDb (sampleRejectThenApprove.take 1)) 7
      = some { sampleSeqExpense with status := .Rejected, approved_amount := .number 0 } ∧
    findExpense (runActions sampleDb sampleRejectThenApprove) 7
      = some { sampleSeqExpense with
          status := .Approved, approved_amount := .number 80, current_step_id := none } ∧
    JsValue.number 80 ≠ JsValue.number 0 ∧
    findExpense sampleDb 8 = some sampleQuorumExpense ∧
    runStatuses sampleDb sampleVetoThenApprove = [200, 200, 200] ∧
    findExpense (runActions sampleDb (sampleVetoThenApprove.take 1)) 8
      = some { sampleQuorumExpense with status := .Rejected, approved_amount := .number 0 } ∧
    findExpense (runActions sampleDb sampleVetoThenApprove) 8
      = some { sampleQuorumExpense with status := .Approved, approved_amount := .number 60 } ∧
    JsValue.number 60 ≠ JsValue.number 0 := by
  decide

/-- C25: a resolved sequential expense falls to the fallback branch.  After manager 1 has
approved expense 7 through its three steps it is `Approved` with approved_amount 80 and no
current step, so the policy dispatch is the fallback one; manager 2, without an earlier
entry for it, then approves with the amount 5: the four `Approved` entries are not fewer
than the two managers of the company, and approved_amount is overwritten with 5. -/
theorem approved_expense_overwritten_by_fallback :
    runStatuses sampleDb sampleResolveSequential = [200, 200, 200] ∧
    findExpense (runActions sampleDb sampleResolveSequential) 7
      = some { sampleSeqExpense with
          status := .Approved, approved_amount := .number 80, current_step_id := none } ∧
    isSequential { sampleSeqExpense with
      status := .Approved, approved_amount := .number 80, current_step_id := none } = false ∧
    selectExistingAction (runActions sampleDb sampleResolveSequential) 7 2 = [] ∧
    countManagers (runActions sampleDb sampleResolveSequential) 1 = 2 ∧
    (actionExpense (runActions sampleDb sampleResolveSequential)
      (sampleRequest 7 2 1 "Approved" (.number 5))).response.status = 200 ∧
    countApprovals (actionExpense (runActions sampleDb sampleResolveSequential)
      (sampleRequest 7 2 1 "Approved" (.number 5))).db 7 = 4 ∧
    findExpense (actionExpense (runActions sampleDb sampleResolveSequential)
        (sampleRequest 7 2 1 "Approved" (.number 5))).db 7
      = some { sampleSeqExpense with
          status := .Approved, approved_amount := .number 5, current_step_id := none } := by
  decide

/-- C27: on a resolving approval, at the last step of the sequential flow or when the
fallback count is reached by an approver without an earlier entry, the handler commits with
status `Approved` and stores the approved_amount of the request whenever the request has
one, an explicit `null`, the number 0 and the empty string included; only for a request
without approved_amount does it store the expense's amount. -/
theorem resolving_approval_stores_supplied_value (db : Db) (req : Request) (e : Expense)
    (hfind : findExpense db req.expenseId = some e)
    (hact : req.action = .string "Approved")
    (hres : (isSequential e = true ∧
        ∃ cur, (selectStep db e.current_step_id).head? = some cur ∧
          ∀ t ∈ db.approval_steps, some t.rule_id = e.rule_id →
            ¬ cur.step_sequence < t.step_sequence) ∨
      (isSequential e = false ∧
        selectExistingAction db req.expenseId req.user.id = [] ∧
        countManagers db e.company_id ≤ countApprovals db req.expenseId + 1)) :
    (actionExpense db req).response.status = 200 ∧
    ∃ e', findExpense (actionExpense db req).db req.expenseId = some e' ∧
      e'.status = .Approved ∧
      (req.approved_amount ≠ .undefined → e'.approved_amount = req.approved_amount) ∧
      (req.approved_amount = .undefined → e'.approved_amount = .number e.amount) ∧
      (req.approved_amount = .null → e'.approved_amount = .null) ∧
      (req.approved_amount = .number 0 → e'.approved_amount = .number 0) ∧
      (req.approved_amount = .string "" → e'.approved_amount = .string "") := by
  have hamt : (req.approved_amount ≠ .undefined →
        resolvedAmount req e = req.approved_amount) ∧
      (req.approved_amount = .undefined → resolvedAmount req e = .number e.amount) ∧
      (req.approved_amount = .null → resolvedAmount req e = .null) ∧
      (req.approved_amount = .number 0 → resolvedAmount req e = .number 0) ∧
      (req.approved_amount = .string "" → resolvedAmount req e = .string "") := by
    refine ⟨fun h => by simp [resolvedAmount, h], fun h => by simp [resolvedAmount, h],
      fun h => by simp [resolvedAmount, h], fun h => by simp [resolvedAmount, h],
      fun h => by simp [resolvedAmount, h]⟩
  rcases hres with ⟨hseq, cur, hcur, hlast⟩ | ⟨hq, hnew, hcount⟩
  · have hnone : (selectNextStep db e.rule_id cur.step_sequence).head? = none := by
      cases hn : (selectNextStep db e.rule_id cur.step_sequence).head? with
      | none => rfl
      | some nxt =>
        obtain ⟨hmem, hrule, hlt, _⟩ :=
          selectNextStep_some db e.rule_id cur.step_sequence nxt hn
        exact absurd hlt (hlast nxt hmem hrule)
    obtain ⟨hok, hfinal⟩ := actionExpense_final db req e cur hfind hact hseq hcur hnone
    exact ⟨hok, _, hfinal, rfl, hamt⟩
  · obtain ⟨hok, _, _, hfinal⟩ := actionExpense_quorum db req e hfind hact hq hnew
    rw [if_pos hcount] at hfinal
    exact ⟨hok, _, hfinal, rfl, hamt⟩

/-! ## The rate lookups of the pending list -/

theorem mem_uniqueValues (l : List String) (x : String) : x ∈ uniqueValues l ↔ x ∈ l := by
  induction l with
  | nil => simp [uniqueValues]
  | cons a l ih =>
    simp only [uniqueValues, List.mem_cons, List.mem_filter, ih, ne_eq, decide_not,
      Bool.not_eq_true', decide_eq_false_iff_not]
    by_cases h : x = a
    · simp [h]
    · simp [h]

theorem nodup_uniqueValues (l : List String) : (uniqueValues l).Nodup := by
  induction l with
  | nil => simp [uniqueValues]
  | cons a l ih =>
    simp only [uniqueValues, List.nodup_cons, List.mem_filter, ne_eq, decide_not,
      Bool.not_eq_true', decide_eq_false_iff_not, not_true_eq_false, and_false,
      not_false_eq_true, true_and]
    exact ih.filter _

/-- The currencies looked up along a list of distinct currencies none of which is an
inherited property name or an own property of the cache. -/
theorem foldl_lookupStep_attempted (lookup : String → RateReply) (d : String) :
    ∀ (l : List String) (st : LookupState), l.Nodup →
      (∀ c ∈ l, c ∉ objectPrototypeKeys) →
      (∀ c ∈ l, st.ratesCache.lookup c = none) →
      (l.foldl (lookupStep lookup d) st).attempted
        = st.attempted ++ l.filter (fun c => c ≠ d) := by
  intro l
  induction l with
  | nil => intro st _ _ _; simp
  | cons c l ih =>
    intro st hnd hproto hcache
    have hnd' := List.nodup_cons.1 hnd
    have hfalse : cacheTruthy st.ratesCache c = false := by
      simp only [cacheTruthy, hcache c (List.mem_cons_self _ _), decide_eq_false_iff_not]
      exact hproto c (List.mem_cons_self _ _)
    have hproto' : ∀ x ∈ l, x ∉ objectPrototypeKeys :=
      fun x hx => hproto x (List.mem_cons_of_mem _ hx)
    have hcache' : ∀ x ∈ l, st.ratesCache.lookup x = none :=
      fun x hx => hcache x (List.mem_cons_of_mem _ hx)
    rw [List.foldl_cons]
    by_cases hc : c = d
    · have hstep : lookupStep lookup d st c = st := by
        simp [lookupStep, hc]
      rw [hstep, ih st hnd'.2 hproto' hcache']
      simp [List.filter_cons, hc]
    · have hfilter : (c :: l).filter (fun x => x ≠ d) = c :: l.filter (fun x => x ≠ d) := by
        simp [List.filter_cons, hc]
      cases hl : lookup c with
      | failed =>
        have hstep : lookupStep lookup d st c
            = { st with attempted := st.attempted ++ [c] } := by
          simp [lookupStep, hc, hfalse, hl]
        rw [hstep, ih { st with attempted := st.attempted ++ [c] } hnd'.2 hproto' hcache',
          hfilter]
        simp
      | replied rates =>
        have hstep : lookupStep lookup d st c
            = { ratesCache := (c, rates) :: st.ratesCache
                attempted := st.attempted ++ [c] } := by
          simp [lookupStep, hc, hfalse, hl]
        have hcache'' : ∀ x ∈ l,
            List.lookup x ((c, rates) :: st.ratesCache) = none := by
          intro x hx
          have hne : x ≠ c := fun h => hnd'.1 (h ▸ hx)
          have hbeq : (x == c) = false := beq_eq_false_iff_ne.2 hne
          rw [List.lookup_cons, hbeq]
          exact hcache' x hx
        rw [hstep, ih { ratesCache := (c, rates) :: st.ratesCache
                        attempted := st.attempted ++ [c] } hnd'.2 hproto' hcache'', hfilter]
        simp

/-- For currencies that are not inherited property names, the loop calls the rate service
once for each distinct currency other than the default one, and for no other. -/
theorem rateLookupLoop_attempted (lookup : String → RateReply) (d : String)
    (expenses : List PendingExpense)
    (hproto : ∀ exp ∈ expenses, exp.currency ∉ objectPrototypeKeys) :
    (rateLookupLoop lookup d expenses).attempted.length = distinctForeignCurrencies d expenses ∧
    (rateLookupLoop lookup d expenses).attempted.Nodup ∧
    d ∉ (rateLookupLoop lookup d expenses).attempted := by
  have hatt : (rateLookupLoop lookup d expenses).attempted
      = (uniqueValues (expenses.map (fun exp => exp.currency))).filter (fun c => c ≠ d) := by
    unfold rateLookupLoop
    rw [foldl_lookupStep_attempted lookup d _ { ratesCache := [], attempted := [] }
      (nodup_uniqueValues _)
      (fun c hc => by
        rw [mem_uniqueValues, List.mem_map] at hc
        obtain ⟨exp, hexp, rfl⟩ := hc
        exact hproto exp hexp)
      (fun c _ => rfl)]
    rfl
  have hnd : ((uniqueValues (expenses.map (fun exp => exp.currency))).filter
      (fun c => c ≠ d)).Nodup := (nodup_uniqueValues _).filter _
  rw [hatt]
  refine ⟨?_, hnd, ?_⟩
  · unfold distinctForeignCurrencies
    apply List.Perm.length_eq
    rw [List.perm_ext_iff_of_nodup hnd (List.nodup_dedup _)]
    intro x
    simp only [List.mem_filter, mem_uniqueValues, List.mem_dedup]
  · simp [List.mem_filter]

/-- C23: a currency that is the name of an inherited property is never looked up.  For a
pending list whose one expense has the currency "constructor" and the default currency USD,
the read `ratesCache[currency]` is truthy on the empty cache, so the loop calls the rate
service for no currency, although one distinct currency differs from the default one; on a
list with EUR (twice), USD and GBP the lookups are those for EUR and GBP. -/
theorem inherited_property_currency_not_looked_up :
    cacheTruthy [] "constructor" = true ∧
    (rateLookupLoop sampleLookup "USD" samplePendingOdd).attempted = [] ∧
    distinctForeignCurrencies "USD" samplePendingOdd = 1 ∧
    (rateLookupLoop sampleLookup "USD" samplePendingList).attempted = ["EUR", "GBP"] ∧
    distinctForeignCurrencies "USD" samplePendingList = 2 := by
  decide

/-! ## Instances on the sample store -/

theorem rejected_action_sets_rejected_witness :
    findExpense sampleDb 7 = some sampleSeqExpense ∧
    (actionExpense sampleDb (sampleRequest 7 2 1 "Rejected" (.number 50))).response.status
      = 200 ∧
    findExpense (actionExpense sampleDb (sampleRequest 7 2 1 "Rejected" (.number 50))).db 7
      = some { sampleSeqExpense with status := .Rejected, approved_amount := .number 0 } :=
  ⟨by decide,
    (rejected_action_sets_rejected sampleDb (sampleRequest 7 2 1 "Rejected" (.number 50))
      sampleSeqExpense (by decide) rfl).1,
    (rejected_action_sets_rejected sampleDb (sampleRequest 7 2 1 "Rejected" (.number 50))
      sampleSeqExpense (by decide) rfl).2.2.1⟩

theorem approved_advances_to_next_step_witness :
    findExpense sampleDb 7 = some sampleSeqExpense ∧
    (actionExpense sampleDb (sampleRequest 7 1 1 "Approved" .undefined)).response.status
      = 200 ∧
    findExpense (actionExpense sampleDb (sampleRequest 7 1 1 "Approved" .undefined)).db 7
      = some { sampleSeqExpense with current_step_id := some 12 } := by
  obtain ⟨nxt, hmem, _, hlt, hmin, _, hok, _, hres, _⟩ :=
    approved_advances_to_next_step sampleDb (sampleRequest 7 1 1 "Approved" .undefined)
      sampleSeqExpense ⟨11, 1, 10⟩ (by decide) rfl (by decide) (by decide)
      ⟨⟨12, 1, 20⟩, by decide, by decide, by decide⟩
  have hle := hmin ⟨12, 1, 20⟩ (by decide) (by decide) (by decide)
  have hid : nxt.id = 12 := by
    simp only [sampleDb, sampleSteps, List.mem_cons, List.mem_singleton, List.mem_nil_iff,
      or_false] at hmem
    rcases hmem with rfl | rfl | rfl
    · exact absurd hlt (by decide)
    · rfl
    · exact absurd hle (by decide)
  rw [hid] at hres
  exact ⟨by decide, hok, hres⟩

theorem approved_at_last_step_resolves_witness :
    findExpense (actionExpense sampleDbLastStep
        (sampleRequest 7 1 1 "Approved" .undefined)).db 7
      = some { sampleSeqExpense with
          status := .Approved, current_step_id := none, approved_amount := .number 100 } :=
  (approved_at_last_step_resolves sampleDbLastStep (sampleRequest 7 1 1 "Approved" .undefined)
    { sampleSeqExpense with current_step_id := some 13 } ⟨13, 1, 30⟩
    (by decide) rfl (by decide) (by decide) (by decide)).2.2

theorem sequential_run_resolves_witness :
    findExpense (runActions sampleDb (sampleSeqRun.take 1)) 7
      = some { sampleSeqExpense with status := .Pending, current_step_id := some 12 } ∧
    findExpense (runActions sampleDb (sampleSeqRun.take 2)) 7
      = some { sampleSeqExpense with status := .Pending, current_step_id := some 13 } ∧
    findExpense (runActions sampleDb sampleSeqRun) 7
      = some { sampleSeqExpense with
          status := .Approved, current_step_id := none
          approved_amount := .number (85 / 2) } :=
  have h := sequential_run_resolves sampleDb sampleSeqRun sampleSeqExpense 7 1 ⟨11, 1, 10⟩
    (by decide) (by decide) (by decide) (by decide) (by decide) (by decide) rfl rfl rfl
    (by decide) (by decide)
  ⟨h.1 1 ⟨12, 1, 20⟩ (by decide), h.1 2 ⟨13, 1, 30⟩ (by decide),
    h.2.2 (sampleRequest 7 1 1 "Approved" (.number (85 / 2))) rfl⟩

theorem quorum_run_resolves_at_manager_count_witness :
    countManagers sampleDb sampleQuorumExpense.company_id = 2 ∧
    findExpense (runActions sampleDb [sampleRequest 8 1 1 "Approved" .undefined]) 8
      = some sampleQuorumExpense ∧
    findExpense (runActions sampleDb [sampleRequest 8 1 1 "Approved" .undefined,
        sampleRequest 8 2 1 "Approved" .undefined]) 8
      = some { sampleQuorumExpense with status := .Approved, approved_amount := .number 60 } :=
  ⟨by decide,
    (quorum_run_resolves_at_manager_count sampleDb [sampleRequest 8 1 1 "Approved" .undefined]
      sampleQuorumExpense 8 2 (by decide) rfl rfl (by decide) (by decide) (by decide)
      (by decide) (by decide)).2.1 (by decide),
    (quorum_run_resolves_at_manager_count sampleDb [sampleRequest 8 1 1 "Approved" .undefined,
        sampleRequest 8 2 1 "Approved" .undefined]
      sampleQuorumExpense 8 2 (by decide) rfl rfl (by decide) (by decide) (by decide)
      (by decide) (by decide)).2.2.1 (sampleRequest 8 2 1 "Approved" .undefined) rfl
      (by decide)⟩

theorem duplicate_action_iff_prior_entry_witness :
    (actionExpense sampleDbOneApproval
      (sampleRequest 8 1 1 "Approved" .undefined)).response = duplicateAction ∧
    (actionExpense sampleDbOneApproval (sampleRequest 8 1 1 "Approved" .undefined)).db
      = sampleDbOneApproval ∧
    (actionExpense sampleDbOneApproval
      (sampleRequest 8 2 1 "Approved" .undefined)).response ≠ duplicateAction :=
  have h1 := duplicate_action_iff_prior_entry sampleDbOneApproval
    (sampleRequest 8 1 1 "Approved" .undefined) sampleQuorumExpense (by decide) rfl rfl
  have h2 := duplicate_action_iff_prior_entry sampleDbOneApproval
    (sampleRequest 8 2 1 "Approved" .undefined) sampleQuorumExpense (by decide) rfl rfl
  have hdup := h1.1.2 ⟨⟨8, 1, .Approved, .null, .null⟩, by decide, by decide, by decide⟩
  ⟨hdup, (h1.2 hdup).1, fun h => absurd (h2.1.1 h) (by decide)⟩

theorem repeat_action_under_quorum_witness :
    (actionExpense sampleDbOneApproval
      (sampleRequest 8 1 1 "Approved" .undefined)).response = duplicateAction ∧
    findExpense (actionExpense sampleDbOneApproval
        (sampleRequest 8 1 1 "Rejected" .undefined)).db 8
      = some { sampleQuorumExpense with status := .Rejected, approved_amount := .number 0 } :=
  ⟨((repeat_action_under_quorum sampleDbOneApproval (sampleRequest 8 1 1 "Approved" .undefined)
      sampleQuorumExpense (by decide) rfl
      ⟨⟨8, 1, .Approved, .null, .null⟩, by decide, by decide, by decide⟩).1 rfl).1,
    ((repeat_action_under_quorum sampleDbOneApproval (sampleRequest 8 1 1 "Rejected" .undefined)
      sampleQuorumExpense (by decide) rfl
      ⟨⟨8, 1, .Approved, .null, .null⟩, by decide, by decide, by decide⟩).2 rfl).2⟩

theorem invalid_action_rejected_witness :
    actionExpense sampleDb (sampleRequest 8 1 1 "approved" .undefined)
      = ⟨invalidAction, sampleDb, none, []⟩ ∧
    actionExpense sampleDb
        { sampleRequest 99 1 1 "" .undefined with action := JsValue.undefined }
      = ⟨invalidAction, sampleDb, none, []⟩ :=
  ⟨invalid_action_rejected sampleDb (sampleRequest 8 1 1 "approved" .undefined)
      (by decide) (by decide),
    invalid_action_rejected sampleDb
      { sampleRequest 99 1 1 "" .undefined with action := JsValue.undefined }
      (by decide) (by decide)⟩

theorem missing_current_step_rolls_back_witness :
    isSequential { sampleSeqExpense with current_step_id := some 99 } = true ∧
    actionExpense sampleDbDangling (sampleRequest 7 1 1 "Approved" .undefined)
      = ⟨serverError, sampleDbDangling, none,
          [.getConnection, .beginTransaction, .rollback, .release]⟩ :=
  ⟨by decide,
    (missing_current_step_rolls_back sampleDbDangling
      (sampleRequest 7 1 1 "Approved" .undefined)
      { sampleSeqExpense with current_step_id := some 99 }
      (by decide) rfl (by decide) (by decide)).1⟩

theorem history_insert_and_commit_witness :
    (actionExpense sampleDb (sampleRequest 8 1 1 "Approved" (.number 50))).db.approval_history
      = [historyRow (sampleRequest 8 1 1 "Approved" (.number 50)) .Approved] ∧
    (actionExpense sampleDbDangling
      (sampleRequest 7 1 1 "Approved" .undefined)).db.approval_history = [] ∧
    (tryBlock sampleDbDangling
      (sampleRequest 7 1 1 "Approved" .undefined) .Approved).work.approval_history
      = [historyRow (sampleRequest 7 1 1 "Approved" .undefined) .Approved] :=
  ⟨((history_insert_and_commit sampleDb (sampleRequest 8 1 1 "Approved" (.number 50))
      .Approved (by decide)).2.2.1 (by decide)).1,
    ((history_insert_and_commit sampleDbDangling (sampleRequest 7 1 1 "Approved" .undefined)
      .Approved (by decide)).2.2.2 (by decide)).1,
    (history_insert_and_commit sampleDbDangling (sampleRequest 7 1 1 "Approved" .undefined)
      .Approved (by decide)).1 { sampleSeqExpense with current_step_id := some 99 }
      (by decide)⟩

theorem success_response_names_action_witness :
    (actionExpense sampleDb (sampleRequest 7 1 1 "Approved" .undefined)).response.message
      = "Expense successfully approved." ∧
    ∃ e', findExpense (actionExpense sampleDb
        (sampleRequest 7 1 1 "Approved" .undefined)).db 7 = some e' ∧
      e'.status = .Pending := by
  obtain ⟨hmsg, e', he', _, _, hseq, _⟩ :=
    success_response_names_action sampleDb (sampleRequest 7 1 1 "Approved" .undefined)
      .Approved sampleSeqExpense (by decide) (by decide) (by decide)
  obtain ⟨cur, hcur, hkeep, _⟩ := hseq rfl (by decide)
  have hcur11 : cur = ⟨11, 1, 10⟩ := by
    have h11 : (selectStep sampleDb sampleSeqExpense.current_step_id).head?
        = some ⟨11, 1, 10⟩ := by decide
    rw [h11] at hcur
    simp only [Option.some.injEq] at hcur
    exact hcur.symm
  subst hcur11
  exact ⟨hmsg, e', he', hkeep ⟨⟨12, 1, 20⟩, by decide, by decide, by decide⟩⟩

theorem unchanged_approval_sends_prefill_witness :
    (approveUnchanged ⟨3, "Manager", 2⟩ samplePending).approved_amount = .string "92.50" ∧
    (approveUnchanged ⟨3, "Manager", 2⟩
      { samplePending with converted_amount := .undefined }).approved_amount
      = .string "100.00" ∧
    ∃ e', findExpense (actionExpense sampleDbForeign
        (approveUnchanged ⟨3, "Manager", 2⟩ samplePending)).db 9 = some e' ∧
      e'.status = .Approved ∧ e'.approved_amount = .string "92.50" := by
  have h := unchanged_approval_sends_prefill ⟨3, "Manager", 2⟩ samplePending
  have h' := unchanged_approval_sends_prefill ⟨3, "Manager", 2⟩
    { samplePending with converted_amount := .undefined }
  obtain ⟨_, e', he', hst, hconv, _⟩ := h.2.2.2.2 sampleDbForeign sampleForeignExpense
    (by decide) (Or.inr ⟨by decide, by decide, by decide⟩)
  exact ⟨h.2.2.1 (by decide), h'.2.2.2.1 (by decide), e', he', hst, hconv (by decide)⟩

theorem submitted_expense_rule_and_step_witness :
    ∃ row, (submitExpense sampleDb sampleSubmit 10).2.expenses = sampleDb.expenses ++ [row] ∧
      row.rule_id = some 1 ∧ row.current_step_id = some 11 := by
  obtain ⟨row, hrow, hrule, _⟩ := submitted_expense_rule_and_step sampleDb sampleSubmit 10
  obtain ⟨h1, _, h3⟩ := hrule ⟨1, 1, "SEQUENTIAL"⟩ (by decide) (by decide)
  exact ⟨row, hrow, h1, (h3 ⟨11, 1, 10⟩ (by decide)).1⟩

theorem history_row_fields_witness :
    ∃ row, (tryBlock sampleDb
        { sampleRequest 7 2 1 "Rejected" (.number 50) with comments := .string "" }
        .Rejected).work.approval_history = sampleDb.approval_history ++ [row] ∧
      row.expense_id = 7 ∧ row.approver_id = 2 ∧ row.action = .Rejected ∧
      row.step_approved_amount = .null ∧ row.comments = .null := by
  obtain ⟨row, h1, h2, h3, _, h4, _, _, h5, _, h6⟩ :=
    history_row_fields sampleDb
      { sampleRequest 7 2 1 "Rejected" (.number 50) with comments := .string "" }
      .Rejected sampleSeqExpense (by decide) (by decide)
  exact ⟨row, h1, h2, h3, h4, h5 rfl, h6 (Or.inr (Or.inr rfl))⟩

theorem resolving_approval_stores_supplied_value_witness :
    (findExpense (actionExpense sampleDbLastStep
      (sampleRequest 7 1 1 "Approved" .null)).db 7).map (fun e => e.approved_amount)
      = some .null ∧
    (findExpense (actionExpense sampleDbOneApproval
      (sampleRequest 8 2 1 "Approved" (.string ""))).db 8).map (fun e => e.approved_amount)
      = some (.string "") := by
  obtain ⟨_, e1, h1, _, _, _, hnull, _, _⟩ :=
    resolving_approval_stores_supplied_value sampleDbLastStep
      (sampleRequest 7 1 1 "Approved" .null)
      { sampleSeqExpense with current_step_id := some 13 } (by decide) rfl
      (Or.inl ⟨by decide, ⟨13, 1, 30⟩, by decide, by decide⟩)
  obtain ⟨_, e2, h2, _, _, _, _, _, hempty⟩ :=
    resolving_approval_stores_supplied_value sampleDbOneApproval
      (sampleRequest 8 2 1 "Approved" (.string "")) sampleQuorumExpense (by decide) rfl
      (Or.inr ⟨by decide, by decide, by decide⟩)
  have h1' : findExpense (actionExpense sampleDbLastStep
      (sampleRequest 7 1 1 "Approved" .null)).db 7 = some e1 := h1
  have h2' : findExpense (actionExpense sampleDbOneApproval
      (sampleRequest 8 2 1 "Approved" (.string ""))).db 8 = some e2 := h2
  rw [h1', h2']
  exact ⟨congrArg some (hnull rfl), congrArg some (hempty rfl)⟩

end ExpenseWorkflow
